import Mathlib

/-!
# Verification of the ng-snapshot Control-State Snapshot Pipeline

A shallow embedding of the core of the `ng-snapshot` browser extension
(`src/content/content-script.js` and `src/content/form-inspector.js`):

* the `DataEncoder` codec (`encodeFormData` / `decodeFormData` together with
  `compressData`, `encodeData`, `decodeData`, `decompressData`,
  `calculateChecksum`),
* the `AngularFormSnapshotContent` reconciliation engine (`restoreForms` loop,
  `restoreControlValue`, `restoreSelectValue`, `generateControlKey`,
  `captureForms` capacity gating),
* the `FormControlInspector` pass merging (`inspectAllFormControls`) and the
  two `generateElementPath` implementations.

JavaScript platform primitives used by the source (`JSON.stringify` /
`JSON.parse`, `btoa` / `atob`, UTF-8 text encoding via
`encodeURIComponent` / `unescape`, `crypto.subtle.digest('SHA-256', _)`, and
`CompressionStream('gzip')`) are modelled by executable Lean implementations
of their specified behaviour; the gzip bit-stream itself is kept as an
explicit function parameter, since no property below depends on its content,
only on the type of data it produces.

The host environment is Chrome (the extension is Manifest-V3, Chrome-only):
there `'CompressionStream' in window` and `crypto.subtle` are always present,
so the dead fallback branches of `compressData` (`dictionaryCompress`) and
`calculateChecksum` (the 32-bit string hash) are noted in comments but not
taken by the embedded definitions.
-/

set_option maxRecDepth 10000

/-! ## JSON values

JavaScript data handled by the codec: `JSON.stringify` / `JSON.parse` operate
on this universe.  Objects are insertion-ordered key/value sequences, exactly
as JavaScript object literals built by the extension are.  Numbers occurring
in the pipeline (`Date.now()` timestamps, `Uint8Array` bytes) are integers,
so the numeric case carries `Int`.  `arr` and `obj` children are represented
by the mutually inductive list types `JsonArr` / `JsonObj` so that every
function below is structurally recursive (and hence kernel-reducible). -/

mutual

inductive Json where
  | null : Json
  | bool (b : Bool) : Json
  | num (n : Int) : Json
  | str (s : String) : Json
  | arr (elems : JsonArr) : Json
  | obj (fields : JsonObj) : Json
  deriving DecidableEq

inductive JsonArr where
  | nil : JsonArr
  | cons (hd : Json) (tl : JsonArr) : JsonArr
  deriving DecidableEq

inductive JsonObj where
  | nil : JsonObj
  | cons (key : String) (val : Json) (tl : JsonObj) : JsonObj
  deriving DecidableEq

end

/-- Build a `JsonArr` from a Lean list. -/
def JsonArr.ofList : List Json → JsonArr
  | [] => .nil
  | j :: js => .cons j (JsonArr.ofList js)

/-- Build a `JsonObj` from a Lean association list. -/
def JsonObj.ofList : List (String × Json) → JsonObj
  | [] => .nil
  | (k, v) :: fs => .cons k v (JsonObj.ofList fs)

/-! ## Decimal digit rendering

`JSON.stringify` renders the integer numbers of the pipeline in plain
decimal.  The renderer is fuel-indexed so that it is structurally recursive
and reduces inside the kernel. -/

/-- One decimal digit character. -/
def digitChar (d : Nat) : Char := Char.ofNat (48 + d)

/-- Decimal digits of `n`, most significant first (fuel-indexed worker). -/
def natToCharsAux : Nat → Nat → List Char
  | 0, _ => []
  | fuel + 1, n =>
    if n < 10 then [digitChar n]
    else natToCharsAux fuel (n / 10) ++ [digitChar (n % 10)]

/-- Decimal digits of `n`, most significant first. -/
def natToChars (n : Nat) : List Char := natToCharsAux (n + 1) n

/-- Rendering of an integer as `JSON.stringify` renders it. -/
def intToChars (i : Int) : List Char :=
  if i < 0 then '-' :: natToChars i.natAbs else natToChars i.toNat

/-! ## String escaping (`JSON.stringify` string rendering) -/

/-- Two lower-case hex digits of a byte-sized value. -/
def byteHexChars (b : Nat) : List Char :=
  [Nat.digitChar (b / 16), Nat.digitChar (b % 16)]

/-- How `JSON.stringify` renders one character inside a string literal:
`"` and `\` are backslash-escaped, the named control escapes are used for
backspace, tab, newline, form feed and carriage return, any other control
character below U+0020 becomes `\u00XX`, and every remaining character is
emitted verbatim. -/
def escapeChar (c : Char) : List Char :=
  if c = '"' then ['\\', '"']
  else if c = '\\' then ['\\', '\\']
  else if c = '\x08' then ['\\', 'b']
  else if c = '\t' then ['\\', 't']
  else if c = '\n' then ['\\', 'n']
  else if c = '\x0c' then ['\\', 'f']
  else if c = '\r' then ['\\', 'r']
  else if c.toNat < 32 then '\\' :: 'u' :: '0' :: '0' :: byteHexChars c.toNat
  else [c]

/-- Characters of a JSON string literal (including the surrounding quotes). -/
def stringifyString (s : String) : List Char :=
  '"' :: s.data.foldr (fun c acc => escapeChar c ++ acc) ['"']

/-! ## `JSON.stringify` -/

mutual

/-- Characters of `JSON.stringify` applied to a `Json` value. -/
def stringifyJson : Json → List Char
  | .null => ['n', '\x75', 'l', 'l']
  | .bool true => ['t', '\x72', 'u', 'e']
  | .bool false => ['f', 'a', 'l', '\x73', 'e']
  | .num n => intToChars n
  | .str s => stringifyString s
  | .arr elems => '[' :: stringifyArr elems ++ [']']
  | .obj fields => '\x7b' :: stringifyObj fields ++ ['\x7d']

/-- Comma-separated renderings of array elements. -/
def stringifyArr : JsonArr → List Char
  | .nil => []
  | .cons j tl => stringifyJson j ++ stringifyArrRest tl

/-- Comma-prefixed renderings of the array elements after the first. -/
def stringifyArrRest : JsonArr → List Char
  | .nil => []
  | .cons j tl => ',' :: (stringifyJson j ++ stringifyArrRest tl)

/-- Comma-separated renderings of object fields. -/
def stringifyObj : JsonObj → List Char
  | .nil => []
  | .cons k v tl => stringifyString k ++ ':' :: (stringifyJson v ++ stringifyObjRest tl)

/-- Comma-prefixed renderings of the object fields after the first. -/
def stringifyObjRest : JsonObj → List Char
  | .nil => []
  | .cons k v tl => ',' :: (stringifyString k ++ ':' :: (stringifyJson v ++ stringifyObjRest tl))

end

/-- `JSON.stringify` as a `String`-valued function. -/
def jsonStringify (j : Json) : String := ⟨stringifyJson j⟩

/-! ## `JSON.parse`

An executable model of `JSON.parse` on the grammar fragment the codec emits
(no insignificant whitespace, integer numerals).  String and digit scanning
are structurally recursive on the character list; the mutually recursive
value/array/object layer is indexed by fuel so that it, too, is structural
and kernel-reducible.  `jsonParse` supplies fuel `length + 1`, which the
completeness lemma below shows is always sufficient for parser input
produced by `JSON.stringify`. -/

/-- Greedily consume decimal digits, extending the accumulator. -/
def parseDigits : Nat → List Char → Nat × List Char
  | acc, [] => (acc, [])
  | acc, c :: cs =>
    if c.isDigit then parseDigits (acc * 10 + (c.toNat - 48)) cs else (acc, c :: cs)

/-- Value of one hexadecimal digit character. -/
def hexVal (c : Char) : Option Nat :=
  if 48 ≤ c.toNat ∧ c.toNat ≤ 57 then some (c.toNat - 48)
  else if 97 ≤ c.toNat ∧ c.toNat ≤ 102 then some (c.toNat - 87)
  else if 65 ≤ c.toNat ∧ c.toNat ≤ 70 then some (c.toNat - 55)
  else none

/-- Decoding of the single-character escapes of JSON string literals. -/
def escDecode (e : Char) : Option Char :=
  if e = '"' then some '"'
  else if e = '\\' then some '\\'
  else if e = '/' then some '/'
  else if e = 'b' then some '\x08'
  else if e = 't' then some '\t'
  else if e = 'n' then some '\n'
  else if e = 'f' then some '\x0c'
  else if e = 'r' then some '\r'
  else none

/-- Scan the body of a JSON string literal (after the opening quote) up to and
including the closing quote, decoding escapes; returns the decoded characters
and the remaining input. -/
def parseStringBody : List Char → Option (List Char × List Char)
  | [] => none
  | c :: rest =>
    if c = '"' then some ([], rest)
    else if c = '\\' then
      match rest with
      | [] => none
      | e :: r2 =>
        if e = 'u' then
          match r2 with
          | h1 :: h2 :: h3 :: h4 :: r3 =>
            match hexVal h1, hexVal h2, hexVal h3, hexVal h4 with
            | some a, some b, some c3, some d =>
              (parseStringBody r3).map
                (fun p => (Char.ofNat (4096 * a + 256 * b + 16 * c3 + d) :: p.1, p.2))
            | _, _, _, _ => none
          | _ => none
        else
          match escDecode e with
          | some de => (parseStringBody r2).map (fun p => (de :: p.1, p.2))
          | none => none
    else (parseStringBody rest).map (fun p => (c :: p.1, p.2))

/-- Consume an expected literal character sequence. -/
def dropLit : List Char → List Char → Option (List Char)
  | [], cs => some cs
  | _ :: _, [] => none
  | l :: ls, c :: cs => if c = l then dropLit ls cs else none

/-- Parse the digits of a negative numeral (after the minus sign). -/
def parseNeg : List Char → Option (Json × List Char)
  | [] => none
  | c :: rest =>
    if c.isDigit then
      let p := parseDigits (c.toNat - 48) rest
      some (.num (-(p.1 : Int)), p.2)
    else none

mutual

/-- Parse one JSON value from the front of the input. -/
def parseValue : Nat → List Char → Option (Json × List Char)
  | 0, _ => none
  | _ + 1, [] => none
  | fuel + 1, c :: rest =>
    if c = 'n' then (dropLit ['u', 'l', 'l'] rest).map (fun r => (.null, r))
    else if c = 't' then (dropLit ['r', 'u', 'e'] rest).map (fun r => (.bool true, r))
    else if c = 'f' then (dropLit ['a', 'l', 's', 'e'] rest).map (fun r => (.bool false, r))
    else if c = '"' then (parseStringBody rest).map (fun p => (.str ⟨p.1⟩, p.2))
    else if c = '[' then
      if rest.head? = some ']' then some (.arr .nil, rest.tail)
      else (parseElems fuel rest).map (fun p => (.arr p.1, p.2))
    else if c = '\x7b' then
      if rest.head? = some '\x7d' then some (.obj .nil, rest.tail)
      else (parseFields fuel rest).map (fun p => (.obj p.1, p.2))
    else if c = '-' then parseNeg rest
    else if c.isDigit then
      let p := parseDigits (c.toNat - 48) rest
      some (.num (p.1 : Int), p.2)
    else none

/-- Parse the elements of a non-empty array (after the opening bracket),
consuming the closing bracket. -/
def parseElems : Nat → List Char → Option (JsonArr × List Char)
  | 0, _ => none
  | fuel + 1, cs =>
    match parseValue fuel cs with
    | none => none
    | some (j, rest) =>
      match rest with
      | [] => none
      | r :: rest2 =>
        if r = ']' then some (.cons j .nil, rest2)
        else if r = ',' then (parseElems fuel rest2).map (fun p => (.cons j p.1, p.2))
        else none

/-- Parse the fields of a non-empty object (after the opening brace),
consuming the closing brace. -/
def parseFields : Nat → List Char → Option (JsonObj × List Char)
  | 0, _ => none
  | fuel + 1, [] => none
  | fuel + 1, c :: cs2 =>
    if c = '"' then
      match parseStringBody cs2 with
      | none => none
      | some (k, rest) =>
        match rest with
        | [] => none
        | r :: rest2 =>
          if r = ':' then
            match parseValue fuel rest2 with
            | none => none
            | some (v, rest3) =>
              match rest3 with
              | [] => none
              | r2 :: rest4 =>
                if r2 = '\x7d' then some (.cons ⟨k⟩ v .nil, rest4)
                else if r2 = ',' then
                  (parseFields fuel rest4).map (fun p => (.cons ⟨k⟩ v p.1, p.2))
                else none
          else none
    else none

end

/-- `JSON.parse`: parse a complete document (no trailing characters). -/
def jsonParse (s : String) : Option Json :=
  match parseValue (s.length + 1) s.data with
  | some (j, []) => some j
  | _ => none

/-! ## Parser completeness on printer output

These lemmas establish that `jsonParse` inverts `jsonStringify`.  They are the
backbone of every round-trip statement about the codec. -/

/-- `Char.ofNat` below the surrogate range keeps its code point. -/
theorem toNat_ofNat_small {n : Nat} (h : n < 55296) : (Char.ofNat n).toNat = n := by
  have h2 : n < 55296 ∨ 57343 < n ∧ n < 1114112 := Or.inl h
  simp [Char.ofNat, Char.toNat, Char.ofNatAux, dif_pos h2, UInt32.toNat, BitVec.toNat_ofNatLt]

/-- Characterization of `Char.isDigit` by code point. -/
theorem isDigit_iff_toNat {c : Char} : c.isDigit = true ↔ 48 ≤ c.toNat ∧ c.toNat ≤ 57 := by
  constructor
  · intro h
    simp [Char.isDigit, decide_eq_true_eq] at h
    exact ⟨h.1, h.2⟩
  · intro h
    simp [Char.isDigit, decide_eq_true_eq]
    exact ⟨h.1, h.2⟩

theorem digitChar_toNat {d : Nat} (h : d < 10) : (digitChar d).toNat = 48 + d :=
  toNat_ofNat_small (by omega)

theorem digitChar_isDigit {d : Nat} (h : d < 10) : (digitChar d).isDigit = true := by
  rw [isDigit_iff_toNat, digitChar_toNat h]
  omega

/-- Fuel irrelevance for the decimal renderer. -/
theorem natToCharsAux_irrel :
    ∀ f1 f2 n, n < f1 → n < f2 → natToCharsAux f1 n = natToCharsAux f2 n := by
  intro f1
  induction f1 with
  | zero => omega
  | succ f1' ih =>
    intro f2 n h1 h2
    match f2, h2 with
    | f2' + 1, _ =>
      simp only [natToCharsAux]
      by_cases hn : n < 10
      · simp [hn]
      · simp only [if_neg hn]
        have : n / 10 < n := Nat.div_lt_self (by omega) (by omega)
        rw [ih f2' (n / 10) (by omega) (by omega)]

/-- Unfolding equation for `natToChars`. -/
theorem natToChars_unfold (n : Nat) :
    natToChars n =
      if n < 10 then [digitChar n] else natToChars (n / 10) ++ [digitChar (n % 10)] := by
  unfold natToChars
  conv_lhs => rw [natToCharsAux]
  by_cases hn : n < 10
  · simp [hn]
  · simp only [if_neg hn]
    have : n / 10 < n := Nat.div_lt_self (by omega) (by omega)
    rw [natToCharsAux_irrel n (n / 10 + 1) (n / 10) (by omega) (by omega)]

theorem natToChars_ne_nil (n : Nat) : natToChars n ≠ [] := by
  rw [natToChars_unfold]
  by_cases hn : n < 10 <;> simp [hn]

theorem natToChars_digits (n : Nat) : ∀ c ∈ natToChars n, c.isDigit = true := by
  induction n using Nat.strong_induction_on with
  | _ n ih =>
    rw [natToChars_unfold]
    by_cases hn : n < 10
    · simp [hn, digitChar_isDigit]
    · simp only [if_neg hn, List.mem_append, List.mem_singleton]
      rintro c (hc | rfl)
      · exact ih (n / 10) (Nat.div_lt_self (by omega) (by omega)) c hc
      · exact digitChar_isDigit (Nat.mod_lt _ (by omega))

/-- Accumulated value of a run of digit characters. -/
def digitsVal (acc : Nat) (l : List Char) : Nat :=
  l.foldl (fun a c => a * 10 + (c.toNat - 48)) acc

/-- The next input character, if any, is not a decimal digit. -/
def headNotDigit : List Char → Bool
  | [] => true
  | c :: _ => !c.isDigit

/-- `parseDigits` consumes exactly a run of digit characters. -/
theorem parseDigits_digits_append {l : List Char} (hd : ∀ c ∈ l, c.isDigit = true) :
    ∀ acc rest, headNotDigit rest = true →
      parseDigits acc (l ++ rest) = (digitsVal acc l, rest) := by
  induction l with
  | nil =>
    intro acc rest hrest
    match rest with
    | [] => simp [parseDigits, digitsVal]
    | c :: cs =>
      simp only [headNotDigit, Bool.not_eq_true'] at hrest
      simp [parseDigits, hrest, digitsVal]
  | cons c cs ih =>
    intro acc rest hrest
    have hc := hd c (by simp)
    simp only [List.cons_append, parseDigits, hc, if_true]
    rw [show cs.append rest = cs ++ rest from rfl,
      ih (fun x hx => hd x (by simp [hx])) _ rest hrest]
    simp [digitsVal]

/-- The digit run of `n` evaluates back to `n` under the accumulator fold. -/
theorem digitsVal_natToChars (n : Nat) :
    ∀ acc, digitsVal acc (natToChars n) = acc * 10 ^ (natToChars n).length + n := by
  induction n using Nat.strong_induction_on with
  | _ n ih =>
    intro acc
    rw [natToChars_unfold]
    by_cases hn : n < 10
    · simp [hn, digitsVal, digitChar_toNat hn]
    · simp only [if_neg hn]
      have hlt : n / 10 < n := Nat.div_lt_self (by omega) (by omega)
      have hmod : n % 10 < 10 := Nat.mod_lt _ (by omega)
      simp only [digitsVal, List.foldl_append, List.foldl_cons, List.foldl_nil]
      have := ih (n / 10) hlt acc
      simp only [digitsVal] at this
      rw [this, digitChar_toNat hmod]
      simp only [List.length_append, List.length_singleton]
      ring_nf
      omega

/-- Parsing the digit run of `n` yields `n`. -/
theorem parseDigits_natToChars (n : Nat) (rest : List Char) (h : headNotDigit rest = true) :
    parseDigits 0 (natToChars n ++ rest) = (n, rest) := by
  rw [parseDigits_digits_append (natToChars_digits n) 0 rest h, digitsVal_natToChars]
  simp

/-- Escaped rendering of a character sequence (string literal body). -/
def escList (l : List Char) : List Char :=
  l.foldr (fun c acc => escapeChar c ++ acc) []

theorem foldr_esc_init (l : List Char) (init : List Char) :
    l.foldr (fun c acc => escapeChar c ++ acc) init = escList l ++ init := by
  induction l with
  | nil => simp [escList]
  | cons c cs ih => simp [escList, ih]

theorem stringifyString_eq (s : String) :
    stringifyString s = '"' :: escList s.data ++ ['"'] := by
  simp [stringifyString, foldr_esc_init]

theorem hexVal_digitChar : ∀ d < 16, hexVal (Nat.digitChar d) = some d := by decide

/-- The string-body scanner undoes `escapeChar` rendering. -/
theorem parseStringBody_escList (l : List Char) (rest : List Char) :
    parseStringBody (escList l ++ '"' :: rest) = some (l, rest) := by
  induction l with
  | nil =>
    rw [show escList [] = [] from rfl, List.nil_append, parseStringBody.eq_def]
    simp
  | cons c cs ih =>
    have hesc : escList (c :: cs) = escapeChar c ++ escList cs := by
      simp [escList]
    rw [hesc]
    by_cases h1 : c = '"'
    · subst h1
      rw [show escapeChar '"' = ['\\', '"'] from rfl, List.append_assoc,
        List.cons_append, List.cons_append, List.nil_append, parseStringBody.eq_def]
      simp [escDecode, ih]
    by_cases h2 : c = '\\'
    · subst h2
      rw [show escapeChar '\\' = ['\\', '\\'] from rfl, List.append_assoc,
        List.cons_append, List.cons_append, List.nil_append, parseStringBody.eq_def]
      simp [escDecode, ih]
    by_cases h3 : c = '\x08'
    · subst h3
      rw [show escapeChar '\x08' = ['\\', 'b'] from rfl, List.append_assoc,
        List.cons_append, List.cons_append, List.nil_append, parseStringBody.eq_def]
      simp [escDecode, ih]
    by_cases h4 : c = '\t'
    · subst h4
      rw [show escapeChar '\t' = ['\\', 't'] from rfl, List.append_assoc,
        List.cons_append, List.cons_append, List.nil_append, parseStringBody.eq_def]
      simp [escDecode, ih]
    by_cases h5 : c = '\n'
    · subst h5
      rw [show escapeChar '\n' = ['\\', 'n'] from rfl, List.append_assoc,
        List.cons_append, List.cons_append, List.nil_append, parseStringBody.eq_def]
      simp [escDecode, ih]
    by_cases h6 : c = '\x0c'
    · subst h6
      rw [show escapeChar '\x0c' = ['\\', 'f'] from rfl, List.append_assoc,
        List.cons_append, List.cons_append, List.nil_append, parseStringBody.eq_def]
      simp [escDecode, ih]
    by_cases h7 : c = '\r'
    · subst h7
      rw [show escapeChar '\r' = ['\\', 'r'] from rfl, List.append_assoc,
        List.cons_append, List.cons_append, List.nil_append, parseStringBody.eq_def]
      simp [escDecode, ih]
    by_cases h8 : c.toNat < 32
    · have hdiv : c.toNat / 16 < 16 := by omega
      have hmod : c.toNat % 16 < 16 := by omega
      have hu : escapeChar c = '\\' :: 'u' :: '0' :: '0' :: byteHexChars c.toNat := by
        simp [escapeChar, h1, h2, h3, h4, h5, h6, h7, h8]
      rw [hu, byteHexChars]
      simp only [List.cons_append, List.nil_append]
      rw [parseStringBody.eq_def]
      simp only [reduceIte, reduceCtorEq, if_neg (by decide : ¬('\\' : Char) = '"'),
        if_pos (rfl : ('\\' : Char) = '\\'), if_pos (rfl : ('u' : Char) = 'u')]
      rw [hexVal_digitChar _ hdiv, hexVal_digitChar _ hmod,
        show hexVal '0' = some 0 from rfl]
      rw [ih]
      have hv : 16 * (c.toNat / 16) + c.toNat % 16 = c.toNat := by omega
      simp [hv, Char.ofNat_toNat]
    · have hne : escapeChar c = [c] := by
        simp [escapeChar, h1, h2, h3, h4, h5, h6, h7, h8]
      rw [hne]
      simp only [List.cons_append, List.nil_append]
      rw [parseStringBody.eq_def]
      simp only [if_neg h1, if_neg h2]
      rw [ih]
      rfl

mutual

/-- Constructor count of a JSON value (fuel lower bound for the parser). -/
def sizeJson : Json → Nat
  | .null => 1
  | .bool _ => 1
  | .num _ => 1
  | .str _ => 1
  | .arr l => 1 + sizeArr l
  | .obj l => 1 + sizeObj l

/-- Constructor count of array elements. -/
def sizeArr : JsonArr → Nat
  | .nil => 0
  | .cons j tl => 1 + sizeJson j + sizeArr tl

/-- Constructor count of object fields. -/
def sizeObj : JsonObj → Nat
  | .nil => 0
  | .cons _ v tl => 1 + sizeJson v + sizeObj tl

end

/-- A digit character is none of the value-dispatch characters of the parser. -/
theorem digit_ne_dispatch {c : Char} (h : c.isDigit = true) :
    c ≠ 'n' ∧ c ≠ 't' ∧ c ≠ 'f' ∧ c ≠ '"' ∧ c ≠ '[' ∧ c ≠ '\x7b' ∧ c ≠ '-' := by
  rw [isDigit_iff_toNat] at h
  refine ⟨?_, ?_, ?_, ?_, ?_, ?_, ?_⟩ <;> (rintro rfl; revert h; decide)

/-- Every printed JSON value starts with a character other than `]` and `}`. -/
theorem stringifyJson_head (j : Json) :
    ∃ c t, stringifyJson j = c :: t ∧ c ≠ ']' ∧ c ≠ '\x7d' := by
  match j with
  | .null => exact ⟨'n', _, rfl, by decide, by decide⟩
  | .bool true => exact ⟨'t', _, rfl, by decide, by decide⟩
  | .bool false => exact ⟨'f', _, rfl, by decide, by decide⟩
  | .num n =>
    rw [show stringifyJson (.num n) = intToChars n from rfl, intToChars]
    by_cases hn : n < 0
    · exact ⟨'-', _, by rw [if_pos hn], by decide, by decide⟩
    · rw [if_neg hn]
      match hne : natToChars n.toNat with
      | [] => exact absurd hne (natToChars_ne_nil _)
      | c :: t =>
        have hd : c.isDigit = true := natToChars_digits _ c (by rw [hne]; simp)
        rw [isDigit_iff_toNat] at hd
        refine ⟨c, t, rfl, ?_, ?_⟩ <;> (rintro rfl; revert hd; decide)
  | .str s =>
    rw [show stringifyJson (.str s) = stringifyString s from rfl, stringifyString_eq]
    exact ⟨'"', _, rfl, by decide, by decide⟩
  | .arr l => exact ⟨'[', _, rfl, by decide, by decide⟩
  | .obj l => exact ⟨'\x7b', _, rfl, by decide, by decide⟩

set_option maxHeartbeats 1600000

mutual

/-- Parser completeness on printer output: one value. -/
theorem parseValue_stringify : ∀ (j : Json) (fuel : Nat) (rest : List Char),
    sizeJson j < fuel → headNotDigit rest = true →
    parseValue fuel (stringifyJson j ++ rest) = some (j, rest)
  | .null, fuel, rest, hf, _ => by
    match fuel, hf with
    | f + 1, _ =>
      rw [show stringifyJson .null ++ rest = 'n' :: 'u' :: 'l' :: 'l' :: rest from rfl,
        parseValue.eq_def]
      simp [dropLit]
  | .bool true, fuel, rest, hf, _ => by
    match fuel, hf with
    | f + 1, _ =>
      rw [show stringifyJson (.bool true) ++ rest = 't' :: 'r' :: 'u' :: 'e' :: rest from rfl,
        parseValue.eq_def]
      simp [dropLit]
  | .bool false, fuel, rest, hf, _ => by
    match fuel, hf with
    | f + 1, _ =>
      rw [show stringifyJson (.bool false) ++ rest =
        'f' :: 'a' :: 'l' :: 's' :: 'e' :: rest from rfl, parseValue.eq_def]
      simp [dropLit]
  | .num n, fuel, rest, hf, hr => by
    match fuel, hf with
    | f + 1, _ =>
      rw [show stringifyJson (.num n) = intToChars n from rfl, intToChars]
      by_cases hn : n < 0
      · rw [if_pos hn]
        match hA : natToChars n.natAbs with
        | [] => exact absurd hA (natToChars_ne_nil _)
        | c :: t =>
          have hcd : c.isDigit = true := natToChars_digits _ c (by rw [hA]; simp)
          have hpd := parseDigits_natToChars n.natAbs rest hr
          rw [hA] at hpd
          simp only [List.cons_append, List.append_eq, parseDigits, hcd, if_true,
            Nat.zero_mul, Nat.zero_add] at hpd
          rw [List.cons_append, parseValue.eq_def]
          simp only [List.cons_append, reduceIte, reduceCtorEq]
          simp [parseNeg, hcd, hpd]
          rw [abs_of_neg hn, neg_neg]
      · rw [if_neg hn]
        match hA : natToChars n.toNat with
        | [] => exact absurd hA (natToChars_ne_nil _)
        | c :: t =>
          have hcd : c.isDigit = true := natToChars_digits _ c (by rw [hA]; simp)
          have hne := digit_ne_dispatch hcd
          have hpd := parseDigits_natToChars n.toNat rest hr
          rw [hA] at hpd
          simp only [List.cons_append, List.append_eq, parseDigits, hcd, if_true,
            Nat.zero_mul, Nat.zero_add] at hpd
          rw [List.cons_append, parseValue.eq_def]
          simp only [hne.1, hne.2.1, hne.2.2.1, hne.2.2.2.1, hne.2.2.2.2.1,
            hne.2.2.2.2.2.1, hne.2.2.2.2.2.2, if_false, if_neg]
          simp [hcd, hpd]
          omega
  | .str s, fuel, rest, hf, _ => by
    match fuel, hf with
    | f + 1, _ =>
      rw [show stringifyJson (.str s) = stringifyString s from rfl, stringifyString_eq]
      simp only [List.cons_append, List.append_assoc, List.singleton_append]
      rw [parseValue.eq_def]
      simp [parseStringBody_escList]
  | .arr .nil, fuel, rest, hf, _ => by
    match fuel, hf with
    | f + 1, _ =>
      rw [show stringifyJson (.arr .nil) ++ rest = '[' :: ']' :: rest from rfl,
        parseValue.eq_def]
      simp
  | .arr (.cons a tl), fuel, rest, hf, _ => by
    match fuel, hf with
    | f + 1, _ =>
      obtain ⟨c0, t0, hc0, hne1, _⟩ := stringifyJson_head a
      have harr : stringifyArr (.cons a tl) = c0 :: (t0 ++ stringifyArrRest tl) := by
        rw [show stringifyArr (.cons a tl) =
          stringifyJson a ++ stringifyArrRest tl from rfl, hc0]
        simp
      rw [show stringifyJson (.arr (.cons a tl)) =
          '[' :: (stringifyArr (.cons a tl) ++ [']']) from rfl]
      rw [List.cons_append, List.append_assoc, List.singleton_append, parseValue.eq_def]
      have hs : sizeArr (.cons a tl) < f := by
        have : sizeJson (.arr (.cons a tl)) = 1 + sizeArr (.cons a tl) := rfl
        omega
      have hpe := parseElems_stringify a tl f rest hs
      simp only [harr, List.cons_append, List.append_assoc] at hpe
      simp [harr, hne1, hpe]
  | .obj .nil, fuel, rest, hf, _ => by
    match fuel, hf with
    | f + 1, _ =>
      rw [show stringifyJson (.obj .nil) ++ rest = '\x7b' :: '\x7d' :: rest from rfl,
        parseValue.eq_def]
      simp
  | .obj (.cons k v tl), fuel, rest, hf, _ => by
    match fuel, hf with
    | f + 1, _ =>
      have hobj : stringifyObj (.cons k v tl) =
          '"' :: (escList k.data ++ '"' ::
            (':' :: (stringifyJson v ++ stringifyObjRest tl))) := by
        rw [show stringifyObj (.cons k v tl) = stringifyString k ++
          ':' :: (stringifyJson v ++ stringifyObjRest tl) from rfl, stringifyString_eq]
        simp
      rw [show stringifyJson (.obj (.cons k v tl)) =
          '\x7b' :: (stringifyObj (.cons k v tl) ++ ['\x7d']) from rfl]
      rw [List.cons_append, List.append_assoc, List.singleton_append, parseValue.eq_def]
      have hs : sizeObj (.cons k v tl) < f := by
        have : sizeJson (.obj (.cons k v tl)) = 1 + sizeObj (.cons k v tl) := rfl
        omega
      have hpf := parseFields_stringify k v tl f rest hs
      simp only [hobj, List.cons_append, List.append_assoc] at hpf
      simp [hobj, hpf]

/-- Parser completeness on printer output: non-empty array elements. -/
theorem parseElems_stringify : ∀ (a : Json) (tl : JsonArr) (fuel : Nat) (rest : List Char),
    sizeArr (.cons a tl) < fuel →
    parseElems fuel (stringifyArr (.cons a tl) ++ ']' :: rest) = some (.cons a tl, rest)
  | a, .nil, fuel, rest, hf => by
    match fuel, hf with
    | f + 1, _ =>
      have hsz : sizeJson a < f := by
        have : sizeArr (.cons a .nil) = 1 + sizeJson a + 0 := rfl
        omega
      have hv := parseValue_stringify a f (']' :: rest) hsz (by simp [headNotDigit])
      rw [show stringifyArr (.cons a .nil) = stringifyJson a ++ [] from rfl]
      rw [parseElems.eq_def]
      simp [hv]
  | a, .cons b tl2, fuel, rest, hf => by
    match fuel, hf with
    | f + 1, _ =>
      have hsz : sizeJson a < f := by
        have : sizeArr (.cons a (.cons b tl2)) =
          1 + sizeJson a + sizeArr (.cons b tl2) := rfl
        have : sizeArr (.cons b tl2) = 1 + sizeJson b + sizeArr tl2 := rfl
        omega
      have hv := parseValue_stringify a f
        (',' :: (stringifyArr (.cons b tl2) ++ ']' :: rest)) hsz (by simp [headNotDigit])
      have hsz2 : sizeArr (.cons b tl2) < f := by
        have h1 : sizeArr (.cons a (.cons b tl2)) =
          1 + sizeJson a + sizeArr (.cons b tl2) := rfl
        omega
      have hrec := parseElems_stringify b tl2 f rest hsz2
      rw [show stringifyArr (.cons a (.cons b tl2)) = stringifyJson a ++
        (',' :: (stringifyJson b ++ stringifyArrRest tl2)) from rfl]
      rw [parseElems.eq_def]
      rw [show stringifyArr (.cons b tl2) =
        stringifyJson b ++ stringifyArrRest tl2 from rfl] at hv hrec
      simp only [List.append_assoc, List.cons_append] at hv hrec ⊢
      simp [hv, hrec]

/-- Parser completeness on printer output: non-empty object fields. -/
theorem parseFields_stringify :
    ∀ (k : String) (v : Json) (tl : JsonObj) (fuel : Nat) (rest : List Char),
    sizeObj (.cons k v tl) < fuel →
    parseFields fuel (stringifyObj (.cons k v tl) ++ '\x7d' :: rest) =
      some (.cons k v tl, rest)
  | k, v, .nil, fuel, rest, hf => by
    match fuel, hf with
    | f + 1, _ =>
      have hsz : sizeJson v < f := by
        have : sizeObj (.cons k v .nil) = 1 + sizeJson v + 0 := rfl
        omega
      have hv := parseValue_stringify v f ('\x7d' :: rest) hsz (by simp [headNotDigit])
      have hobj : stringifyObj (.cons k v .nil) =
          '"' :: (escList k.data ++ '"' :: (':' :: (stringifyJson v ++ []))) := by
        rw [show stringifyObj (.cons k v .nil) = stringifyString k ++
          ':' :: (stringifyJson v ++ stringifyObjRest .nil) from rfl, stringifyString_eq,
          show stringifyObjRest .nil = ([] : List Char) from rfl]
        simp
      rw [hobj, parseFields.eq_def]
      simp only [List.cons_append, List.append_assoc, List.append_nil, List.nil_append]
      rw [parseStringBody_escList]
      simp [hv]
  | k, v, .cons k2 v2 tl2, fuel, rest, hf => by
    match fuel, hf with
    | f + 1, _ =>
      have hsz : sizeJson v < f := by
        have h1 : sizeObj (.cons k v (.cons k2 v2 tl2)) =
          1 + sizeJson v + sizeObj (.cons k2 v2 tl2) := rfl
        have h2 : sizeObj (.cons k2 v2 tl2) = 1 + sizeJson v2 + sizeObj tl2 := rfl
        omega
      have hsz2 : sizeObj (.cons k2 v2 tl2) < f := by
        have h1 : sizeObj (.cons k v (.cons k2 v2 tl2)) =
          1 + sizeJson v + sizeObj (.cons k2 v2 tl2) := rfl
        omega
      have hv := parseValue_stringify v f
        (',' :: (stringifyObj (.cons k2 v2 tl2) ++ '\x7d' :: rest)) hsz
        (by simp [headNotDigit])
      have hrec := parseFields_stringify k2 v2 tl2 f rest hsz2
      have hobj : stringifyObj (.cons k v (.cons k2 v2 tl2)) =
          '"' :: (escList k.data ++ '"' :: (':' :: (stringifyJson v ++
            (',' :: stringifyObj (.cons k2 v2 tl2))))) := by
        rw [show stringifyObj (.cons k v (.cons k2 v2 tl2)) = stringifyString k ++
          ':' :: (stringifyJson v ++ stringifyObjRest (.cons k2 v2 tl2)) from rfl,
          stringifyString_eq,
          show stringifyObjRest (.cons k2 v2 tl2) =
            ',' :: stringifyObj (.cons k2 v2 tl2) from rfl]
        simp
      rw [hobj, parseFields.eq_def]
      simp only [List.cons_append, List.append_assoc, List.nil_append]
      rw [parseStringBody_escList]
      simp only [List.append_assoc, List.cons_append] at hv hrec ⊢
      simp [hv, hrec]

end

mutual

/-- A JSON value never has more constructors than printed characters. -/
theorem sizeJson_le_len : ∀ j : Json, sizeJson j ≤ (stringifyJson j).length
  | .null => by simp [show stringifyJson .null = ['n', 'u', 'l', 'l'] from rfl, sizeJson]
  | .bool true => by
    simp [show stringifyJson (.bool true) = ['t', 'r', 'u', 'e'] from rfl, sizeJson]
  | .bool false => by
    simp [show stringifyJson (.bool false) = ['f', 'a', 'l', 's', 'e'] from rfl, sizeJson]
  | .num n => by
    rw [show stringifyJson (.num n) = intToChars n from rfl, intToChars]
    by_cases hn : n < 0
    · rw [if_pos hn]
      simp [sizeJson]
    · rw [if_neg hn]
      match hA : natToChars n.toNat with
      | [] => exact absurd hA (natToChars_ne_nil _)
      | c :: t => simp [sizeJson]
  | .str s => by
    rw [show stringifyJson (.str s) = stringifyString s from rfl, stringifyString_eq]
    simp [sizeJson]
  | .arr l => by
    have h := sizeArrRest_le_len l
    rw [show stringifyJson (.arr l) = '[' :: stringifyArr l ++ [']'] from rfl,
      show sizeJson (.arr l) = 1 + sizeArr l from rfl]
    have h2 := sizeArr_le_len l
    simp only [List.length_append, List.length_cons, List.length_singleton]
    omega
  | .obj l => by
    rw [show stringifyJson (.obj l) = '\x7b' :: stringifyObj l ++ ['\x7d'] from rfl,
      show sizeJson (.obj l) = 1 + sizeObj l from rfl]
    have h2 := sizeObj_le_len l
    simp only [List.length_append, List.length_cons, List.length_singleton]
    omega

/-- Elements bound via the first-element rendering. -/
theorem sizeArr_le_len : ∀ l : JsonArr, sizeArr l ≤ 1 + (stringifyArr l).length
  | .nil => by simp [sizeArr]
  | .cons a tl => by
    have h1 := sizeJson_le_len a
    have h2 := sizeArrRest_le_len tl
    rw [show stringifyArr (.cons a tl) = stringifyJson a ++ stringifyArrRest tl from rfl,
      show sizeArr (.cons a tl) = 1 + sizeJson a + sizeArr tl from rfl]
    simp only [List.length_append]
    omega

/-- Elements bound via the comma-prefixed rendering. -/
theorem sizeArrRest_le_len : ∀ l : JsonArr, sizeArr l ≤ (stringifyArrRest l).length
  | .nil => by simp [sizeArr]
  | .cons a tl => by
    have h1 := sizeJson_le_len a
    have h2 := sizeArrRest_le_len tl
    rw [show stringifyArrRest (.cons a tl) =
      ',' :: (stringifyJson a ++ stringifyArrRest tl) from rfl,
      show sizeArr (.cons a tl) = 1 + sizeJson a + sizeArr tl from rfl]
    simp only [List.length_cons, List.length_append]
    omega

/-- Fields bound via the first-field rendering. -/
theorem sizeObj_le_len : ∀ l : JsonObj, sizeObj l ≤ 1 + (stringifyObj l).length
  | .nil => by simp [sizeObj]
  | .cons k v tl => by
    have h1 := sizeJson_le_len v
    have h2 := sizeObjRest_le_len tl
    rw [show stringifyObj (.cons k v tl) = stringifyString k ++
      ':' :: (stringifyJson v ++ stringifyObjRest tl) from rfl,
      show sizeObj (.cons k v tl) = 1 + sizeJson v + sizeObj tl from rfl]
    simp only [List.length_append, List.length_cons]
    omega

/-- Fields bound via the comma-prefixed rendering. -/
theorem sizeObjRest_le_len : ∀ l : JsonObj, sizeObj l ≤ (stringifyObjRest l).length
  | .nil => by simp [sizeObj]
  | .cons k v tl => by
    have h1 := sizeJson_le_len v
    have h2 := sizeObjRest_le_len tl
    rw [show stringifyObjRest (.cons k v tl) = ',' :: (stringifyString k ++
      ':' :: (stringifyJson v ++ stringifyObjRest tl)) from rfl,
      show sizeObj (.cons k v tl) = 1 + sizeJson v + sizeObj tl from rfl]
    simp only [List.length_cons, List.length_append]
    omega

end

/-- `JSON.parse` inverts `JSON.stringify`: the platform-level round trip the
codec relies on. -/
theorem jsonParse_jsonStringify (j : Json) : jsonParse (jsonStringify j) = some j := by
  have hlen : (jsonStringify j).length = (stringifyJson j).length := rfl
  have hsz := sizeJson_le_len j
  have h := parseValue_stringify j ((stringifyJson j).length + 1) [] (by omega)
    (by simp [headNotDigit])
  rw [List.append_nil] at h
  unfold jsonParse
  rw [hlen, show (jsonStringify j).data = stringifyJson j from rfl, h]

/-! ## UTF-8

`encodeData` runs `btoa(unescape(encodeURIComponent(s)))`: the inner pair
converts the string to its UTF-8 byte sequence (held as a binary string);
`decodeData` runs `decodeURIComponent(escape(atob(t)))`, converting UTF-8
bytes back to text.  The byte conversion is modelled directly. -/

/-- UTF-8 bytes of one character. -/
def utf8EncodeChar (c : Char) : List Nat :=
  let n := c.toNat
  if n < 128 then [n]
  else if n < 2048 then [192 + n / 64, 128 + n % 64]
  else if n < 65536 then [224 + n / 4096, 128 + n / 64 % 64, 128 + n % 64]
  else [240 + n / 262144, 128 + n / 4096 % 64, 128 + n / 64 % 64, 128 + n % 64]

/-- UTF-8 bytes of a string. -/
def utf8Encode (s : String) : List Nat :=
  s.data.foldr (fun c acc => utf8EncodeChar c ++ acc) []

/-- Read one continuation byte. -/
def utf8Cont1 : List Nat → Option (Nat × List Nat)
  | b2 :: r => if 128 ≤ b2 ∧ b2 < 192 then some (b2 - 128, r) else none
  | [] => none

/-- Read two continuation bytes. -/
def utf8Cont2 : List Nat → Option (Nat × Nat × List Nat)
  | b2 :: b3 :: r =>
    if 128 ≤ b2 ∧ b2 < 192 ∧ 128 ≤ b3 ∧ b3 < 192 then some (b2 - 128, b3 - 128, r)
    else none
  | _ => none

/-- Read three continuation bytes. -/
def utf8Cont3 : List Nat → Option (Nat × Nat × Nat × List Nat)
  | b2 :: b3 :: b4 :: r =>
    if 128 ≤ b2 ∧ b2 < 192 ∧ 128 ≤ b3 ∧ b3 < 192 ∧ 128 ≤ b4 ∧ b4 < 192 then
      some (b2 - 128, b3 - 128, b4 - 128, r)
    else none
  | _ => none

/-- Decode a UTF-8 byte sequence into characters (fuel-indexed worker). -/
def utf8DecodeCharsF : Nat → List Nat → Option (List Char)
  | 0, _ => none
  | _ + 1, [] => some []
  | fuel + 1, b :: rest =>
    if b < 128 then (utf8DecodeCharsF fuel rest).map (fun l => Char.ofNat b :: l)
    else if b < 192 then none
    else if b < 224 then
      match utf8Cont1 rest with
      | some (v2, r) =>
        (utf8DecodeCharsF fuel r).map (fun l => Char.ofNat ((b - 192) * 64 + v2) :: l)
      | none => none
    else if b < 240 then
      match utf8Cont2 rest with
      | some (v2, v3, r) =>
        (utf8DecodeCharsF fuel r).map
          (fun l => Char.ofNat ((b - 224) * 4096 + v2 * 64 + v3) :: l)
      | none => none
    else if b < 248 then
      match utf8Cont3 rest with
      | some (v2, v3, v4, r) =>
        (utf8DecodeCharsF fuel r).map
          (fun l => Char.ofNat ((b - 240) * 262144 + v2 * 4096 + v3 * 64 + v4) :: l)
      | none => none
    else none

/-- Decode a UTF-8 byte sequence into a string. -/
def utf8Decode (l : List Nat) : Option String :=
  (utf8DecodeCharsF (l.length + 1) l).map (fun cs => ⟨cs⟩)

/-- Code points are below 0x110000. -/
theorem char_toNat_lt (c : Char) : c.toNat < 1114112 := by
  have h := c.valid
  rcases h with h | h
  · have : c.val.toNat < 55296 := h
    unfold Char.toNat
    omega
  · exact h.2

/-- UTF-8 bytes are bytes. -/
theorem utf8EncodeChar_lt (c : Char) : ∀ b ∈ utf8EncodeChar c, b < 256 := by
  have hlt := char_toNat_lt c
  unfold utf8EncodeChar
  by_cases h1 : c.toNat < 128
  · simp [h1]; omega
  by_cases h2 : c.toNat < 2048
  · simp [h1, h2]
    constructor <;> omega
  by_cases h3 : c.toNat < 65536
  · simp [h1, h2, h3]
    refine ⟨by omega, by omega, by omega⟩
  · simp [h1, h2, h3]
    refine ⟨by omega, by omega, by omega, by omega⟩

/-- One-character step of the UTF-8 round trip. -/
theorem utf8DecodeCharsF_encodeChar (c : Char) (fuel : Nat) (rest : List Nat) :
    utf8DecodeCharsF (fuel + 1) (utf8EncodeChar c ++ rest) =
      (utf8DecodeCharsF fuel rest).map (fun l => c :: l) := by
  have hlt := char_toNat_lt c
  have hofNat : Char.ofNat c.toNat = c := Char.ofNat_toNat c
  unfold utf8EncodeChar
  by_cases h1 : c.toNat < 128
  · simp only [h1, if_true, List.cons_append, List.nil_append]
    rw [utf8DecodeCharsF.eq_def]
    simp [h1, hofNat]
  by_cases h2 : c.toNat < 2048
  · simp only [h1, if_false, h2, if_true, List.cons_append, List.nil_append]
    rw [utf8DecodeCharsF.eq_def]
    have e1 : ¬(192 + c.toNat / 64 < 128) := by omega
    have e2 : ¬(192 + c.toNat / 64 < 192) := by omega
    have e3 : 192 + c.toNat / 64 < 224 := by omega
    have e4 : 128 ≤ 128 + c.toNat % 64 ∧ 128 + c.toNat % 64 < 192 := by omega
    simp only [e1, if_false, e2, e3, if_true, utf8Cont1, e4, and_self]
    simp [hofNat, show c.toNat / 64 * 64 + c.toNat % 64 = c.toNat from by omega]
  by_cases h3 : c.toNat < 65536
  · simp only [h1, if_false, h2, h3, if_true, List.cons_append, List.nil_append]
    rw [utf8DecodeCharsF.eq_def]
    have e1 : ¬(224 + c.toNat / 4096 < 128) := by omega
    have e2 : ¬(224 + c.toNat / 4096 < 192) := by omega
    have e3 : ¬(224 + c.toNat / 4096 < 224) := by omega
    have e4 : 224 + c.toNat / 4096 < 240 := by omega
    have e5 : 128 ≤ 128 + c.toNat / 64 % 64 ∧ 128 + c.toNat / 64 % 64 < 192 ∧
        128 ≤ 128 + c.toNat % 64 ∧ 128 + c.toNat % 64 < 192 := by omega
    simp only [e1, if_false, e2, e3, e4, if_true, utf8Cont2, e5, and_self]
    simp [hofNat, show c.toNat / 4096 * 4096 + c.toNat / 64 % 64 * 64 + c.toNat % 64 =
      c.toNat from by omega]
  · simp only [h1, if_false, h2, h3, List.cons_append, List.nil_append]
    rw [utf8DecodeCharsF.eq_def]
    have e1 : ¬(240 + c.toNat / 262144 < 128) := by omega
    have e2 : ¬(240 + c.toNat / 262144 < 192) := by omega
    have e3 : ¬(240 + c.toNat / 262144 < 224) := by omega
    have e4 : ¬(240 + c.toNat / 262144 < 240) := by omega
    have e5 : 240 + c.toNat / 262144 < 248 := by omega
    have e6 : 128 ≤ 128 + c.toNat / 4096 % 64 ∧ 128 + c.toNat / 4096 % 64 < 192 ∧
        128 ≤ 128 + c.toNat / 64 % 64 ∧ 128 + c.toNat / 64 % 64 < 192 ∧
        128 ≤ 128 + c.toNat % 64 ∧ 128 + c.toNat % 64 < 192 := by omega
    simp only [e1, if_false, e2, e3, e4, e5, if_true, utf8Cont3, e6, and_self]
    simp [hofNat, show c.toNat / 262144 * 262144 + c.toNat / 4096 % 64 * 4096 +
      c.toNat / 64 % 64 * 64 + c.toNat % 64 = c.toNat from by omega]

/-- The byte-list round trip, for any sufficient fuel. -/
theorem utf8DecodeCharsF_encodeList (data : List Char) :
    ∀ fuel, data.length < fuel →
      utf8DecodeCharsF fuel (data.foldr (fun c acc => utf8EncodeChar c ++ acc) []) =
        some data := by
  induction data with
  | nil =>
    intro fuel hf
    match fuel, hf with
    | f + 1, _ => simp [utf8DecodeCharsF]
  | cons c cs ih =>
    intro fuel hf
    match fuel, hf with
    | f + 1, hf2 =>
      simp only [List.foldr_cons]
      rw [utf8DecodeCharsF_encodeChar]
      rw [ih f (by simp only [List.length_cons] at hf2; omega)]
      rfl

/-- Every character contributes at least one UTF-8 byte. -/
theorem utf8EncodeChar_ne_nil (c : Char) : utf8EncodeChar c ≠ [] := by
  unfold utf8EncodeChar
  by_cases h1 : c.toNat < 128
  · simp [h1]
  by_cases h2 : c.toNat < 2048
  · simp [h1, h2]
  by_cases h3 : c.toNat < 65536 <;> simp [h1, h2, h3]

/-- The byte sequence is at least as long as the character sequence. -/
theorem length_le_utf8Encode (s : String) : s.data.length ≤ (utf8Encode s).length := by
  unfold utf8Encode
  induction s.data with
  | nil => simp
  | cons c cs ih =>
    simp only [List.foldr_cons, List.length_append, List.length_cons]
    have := utf8EncodeChar_ne_nil c
    have : 1 ≤ (utf8EncodeChar c).length := by
      match h : utf8EncodeChar c with
      | [] => exact absurd h this
      | _ :: _ => simp
    omega

/-- The UTF-8 round trip. -/
theorem utf8Decode_utf8Encode (s : String) : utf8Decode (utf8Encode s) = some s := by
  unfold utf8Decode
  have hlen := length_le_utf8Encode s
  have h := utf8DecodeCharsF_encodeList s.data ((utf8Encode s).length + 1) (by omega)
  rw [show s.data.foldr (fun c acc => utf8EncodeChar c ++ acc) [] = utf8Encode s
    from rfl] at h
  rw [h]
  rfl

/-! ## Base64

`encodeData` produces `btoa(bytes)` post-processed by
`.replace(/\+/g, '-').replace(/\//g, '_').replace(/=+$/, '')`; `decodeData`
reverses the character replacements, restores `'='` padding to a multiple of
four and runs `atob`. -/

/-- The standard base64 alphabet used by `btoa` / `atob`. -/
def b64Alphabet : List Char :=
  "ABCDEFGHIJKLMNOPQRSTUVWXYZabcdefghijklmnopqrstuvwxyz0123456789+/".data

/-- Character for a six-bit group. -/
def b64Char (n : Nat) : Char := b64Alphabet.getD n 'A'

/-- Index of a base64 character. -/
def b64Index (c : Char) : Option Nat := b64Alphabet.findIdx? (· = c)

/-- `btoa`: standard base64 with `=` padding, over a byte list. -/
def btoaChars : List Nat → List Char
  | [] => []
  | a :: rest =>
    match rest with
    | [] => [b64Char (a / 4), b64Char (a % 4 * 16), '=', '=']
    | b :: rest2 =>
      match rest2 with
      | [] => [b64Char (a / 4), b64Char (a % 4 * 16 + b / 16), b64Char (b % 16 * 4), '=']
      | c :: rest3 =>
        b64Char (a / 4) :: b64Char (a % 4 * 16 + b / 16) ::
          b64Char (b % 16 * 4 + c / 64) :: b64Char (c % 64) :: btoaChars rest3

/-- `atob`: decode padded base64 groups of four characters to bytes. -/
def atobChars : List Char → Option (List Nat)
  | [] => some []
  | c1 :: r1 =>
    match r1 with
    | [] => none
    | c2 :: r2 =>
      match b64Index c1, b64Index c2 with
      | some v1, some v2 =>
        match r2 with
        | [] => none
        | c3 :: r3 =>
          if c3 = '=' then
            if r3 = ['='] then some [v1 * 4 + v2 / 16] else none
          else
            match b64Index c3 with
            | some v3 =>
              match r3 with
              | [] => none
              | c4 :: r4 =>
                if c4 = '=' then
                  if r4 = [] then some [v1 * 4 + v2 / 16, v2 % 16 * 16 + v3 / 4] else none
                else
                  match b64Index c4 with
                  | some v4 =>
                    (atobChars r4).map (fun bs => (v1 * 4 + v2 / 16) ::
                      (v2 % 16 * 16 + v3 / 4) :: (v3 % 4 * 64 + v4) :: bs)
                  | none => none
            | none => none
      | _, _ => none

/-- The `+ → -` and `/ → _` replacement of `encodeData`. -/
def urlSafeChar (c : Char) : Char :=
  if c = '+' then '-' else if c = '/' then '_' else c

/-- The `- → +` and `_ → /` replacement of `decodeData`. -/
def unUrlSafeChar (c : Char) : Char :=
  if c = '-' then '+' else if c = '_' then '/' else c

/-- The `.replace(/=+$/, '')` step of `encodeData`. -/
def dropTrailingEq (l : List Char) : List Char :=
  (l.reverse.dropWhile (· = '=')).reverse

/-- The `'='.repeat((4 - length % 4) % 4)` re-padding step of `decodeData`. -/
def padBase64 (l : List Char) : List Char :=
  l ++ List.replicate ((4 - l.length % 4) % 4) '='

/-- The unpadded base64 rendering: what `btoa` keeps after `=`-stripping. -/
def b64Core : List Nat → List Char
  | [] => []
  | a :: rest =>
    match rest with
    | [] => [b64Char (a / 4), b64Char (a % 4 * 16)]
    | b :: rest2 =>
      match rest2 with
      | [] => [b64Char (a / 4), b64Char (a % 4 * 16 + b / 16), b64Char (b % 16 * 4)]
      | c :: rest3 =>
        b64Char (a / 4) :: b64Char (a % 4 * 16 + b / 16) ::
          b64Char (b % 16 * 4 + c / 64) :: b64Char (c % 64) :: b64Core rest3

theorem b64Index_b64Char : ∀ v < 64, b64Index (b64Char v) = some v := by decide

theorem b64Char_ne_pad : ∀ v < 64, b64Char v ≠ '=' := by decide

theorem unUrl_url_b64 : ∀ v < 64, unUrlSafeChar (urlSafeChar (b64Char v)) = b64Char v := by
  decide

theorem urlSafe_b64Char_ne_pad : ∀ v < 64, urlSafeChar (b64Char v) ≠ '=' := by decide

/-- Stripping trailing `=` skips over an `=`-free block. -/
theorem dropTrailingEq_append (p X : List Char) (hp : ∀ c ∈ p, c ≠ '=') :
    dropTrailingEq (p ++ X) = p ++ dropTrailingEq X := by
  unfold dropTrailingEq
  rw [List.reverse_append, List.dropWhile_append]
  by_cases h : (X.reverse.dropWhile (fun x => x = '=')).isEmpty
  · rw [if_pos h]
    have h2 : X.reverse.dropWhile (fun x => x = '=') = [] := by
      simpa [List.isEmpty_iff] using h
    rw [h2]
    have h3 : p.reverse.dropWhile (fun x => x = '=') = p.reverse := by
      match hrev : p.reverse with
      | [] => rfl
      | c :: t =>
        have hc : c ∈ p := by
          rw [← List.mem_reverse, hrev]
          simp
        rw [List.dropWhile_cons]
        simp [hp c hc]
    rw [h3]
    simp
  · rw [if_neg h]
    simp

/-- The `=`-stripping of the padded base64 rendering leaves the core. -/
theorem dropTrailingEq_btoaChars :
    ∀ bytes : List Nat, (∀ b ∈ bytes, b < 256) →
      dropTrailingEq (List.map urlSafeChar (btoaChars bytes)) =
        List.map urlSafeChar (b64Core bytes)
  | [], _ => by simp [btoaChars, b64Core, dropTrailingEq]
  | [a], hb => by
    have ha : a < 256 := hb a (by simp)
    have h1 : a / 4 < 64 := by omega
    have h2 : a % 4 * 16 < 64 := by omega
    rw [show btoaChars [a] = [b64Char (a / 4), b64Char (a % 4 * 16), '=', '='] from rfl,
      show b64Core [a] = [b64Char (a / 4), b64Char (a % 4 * 16)] from rfl]
    simp only [List.map_cons, List.map_nil, dropTrailingEq, List.reverse_cons,
      List.reverse_nil, List.nil_append, List.cons_append, List.dropWhile,
      show urlSafeChar '=' = '=' from rfl]
    simp [urlSafe_b64Char_ne_pad _ h1, urlSafe_b64Char_ne_pad _ h2]
  | [a, b], hb => by
    have ha : a < 256 := hb a (by simp)
    have hbb : b < 256 := hb b (by simp)
    have h1 : a / 4 < 64 := by omega
    have h2 : a % 4 * 16 + b / 16 < 64 := by omega
    have h3 : b % 16 * 4 < 64 := by omega
    rw [show btoaChars [a, b] = [b64Char (a / 4), b64Char (a % 4 * 16 + b / 16),
        b64Char (b % 16 * 4), '='] from rfl,
      show b64Core [a, b] = [b64Char (a / 4), b64Char (a % 4 * 16 + b / 16),
        b64Char (b % 16 * 4)] from rfl]
    simp only [List.map_cons, List.map_nil, dropTrailingEq, List.reverse_cons,
      List.reverse_nil, List.nil_append, List.cons_append, List.dropWhile,
      show urlSafeChar '=' = '=' from rfl]
    simp [urlSafe_b64Char_ne_pad _ h1, urlSafe_b64Char_ne_pad _ h2,
      urlSafe_b64Char_ne_pad _ h3]
  | a :: b :: c :: rest, hb => by
    have ha : a < 256 := hb a (by simp)
    have hbb : b < 256 := hb b (by simp)
    have hc : c < 256 := hb c (by simp)
    have h1 : a / 4 < 64 := by omega
    have h2 : a % 4 * 16 + b / 16 < 64 := by omega
    have h3 : b % 16 * 4 + c / 64 < 64 := by omega
    have h4 : c % 64 < 64 := by omega
    have ih := dropTrailingEq_btoaChars rest (fun x hx => hb x (by simp [hx]))
    rw [show btoaChars (a :: b :: c :: rest) = b64Char (a / 4) ::
        b64Char (a % 4 * 16 + b / 16) :: b64Char (b % 16 * 4 + c / 64) ::
        b64Char (c % 64) :: btoaChars rest from rfl,
      show b64Core (a :: b :: c :: rest) = b64Char (a / 4) ::
        b64Char (a % 4 * 16 + b / 16) :: b64Char (b % 16 * 4 + c / 64) ::
        b64Char (c % 64) :: b64Core rest from rfl]
    simp only [List.map_cons]
    rw [show ∀ x1 x2 x3 x4 (t : List Char), x1 :: x2 :: x3 :: x4 :: t =
      [x1, x2, x3, x4] ++ t from fun _ _ _ _ _ => rfl]
    rw [show ∀ x1 x2 x3 x4 (t : List Char), x1 :: x2 :: x3 :: x4 :: t =
      [x1, x2, x3, x4] ++ t from fun _ _ _ _ _ => rfl]
    rw [dropTrailingEq_append _ _ (by
      intro ch hch
      simp at hch
      rcases hch with rfl | rfl | rfl | rfl
      · exact urlSafe_b64Char_ne_pad _ h1
      · exact urlSafe_b64Char_ne_pad _ h2
      · exact urlSafe_b64Char_ne_pad _ h3
      · exact urlSafe_b64Char_ne_pad _ h4), ih]
    simp

/-- Every character of the stripped rendering is a six-bit-group character. -/
theorem b64Core_mem :
    ∀ bytes : List Nat, (∀ b ∈ bytes, b < 256) →
      ∀ c ∈ b64Core bytes, ∃ v, v < 64 ∧ c = b64Char v
  | [], _ => by simp [b64Core]
  | [a], hb => by
    have ha : a < 256 := hb a (by simp)
    rw [show b64Core [a] = [b64Char (a / 4), b64Char (a % 4 * 16)] from rfl]
    intro c hc
    simp at hc
    rcases hc with rfl | rfl
    · exact ⟨a / 4, by omega, rfl⟩
    · exact ⟨a % 4 * 16, by omega, rfl⟩
  | [a, b], hb => by
    have ha : a < 256 := hb a (by simp)
    have hbb : b < 256 := hb b (by simp)
    rw [show b64Core [a, b] = [b64Char (a / 4), b64Char (a % 4 * 16 + b / 16),
      b64Char (b % 16 * 4)] from rfl]
    intro c hc
    simp at hc
    rcases hc with rfl | rfl | rfl
    · exact ⟨a / 4, by omega, rfl⟩
    · exact ⟨a % 4 * 16 + b / 16, by omega, rfl⟩
    · exact ⟨b % 16 * 4, by omega, rfl⟩
  | a :: b :: c :: rest, hb => by
    have ha : a < 256 := hb a (by simp)
    have hbb : b < 256 := hb b (by simp)
    have hcc : c < 256 := hb c (by simp)
    have ih := b64Core_mem rest (fun x hx => hb x (by simp [hx]))
    rw [show b64Core (a :: b :: c :: rest) = b64Char (a / 4) ::
      b64Char (a % 4 * 16 + b / 16) :: b64Char (b % 16 * 4 + c / 64) ::
      b64Char (c % 64) :: b64Core rest from rfl]
    intro ch hch
    simp only [List.mem_cons] at hch
    rcases hch with rfl | rfl | rfl | rfl | h
    · exact ⟨a / 4, by omega, rfl⟩
    · exact ⟨a % 4 * 16 + b / 16, by omega, rfl⟩
    · exact ⟨b % 16 * 4 + c / 64, by omega, rfl⟩
    · exact ⟨c % 64, by omega, rfl⟩
    · exact ih ch h

/-- Undoing the URL-safe replacement is the identity on six-bit-group lists. -/
theorem map_unurl_url (l : List Char) (h : ∀ c ∈ l, ∃ v, v < 64 ∧ c = b64Char v) :
    List.map unUrlSafeChar (List.map urlSafeChar l) = l := by
  induction l with
  | nil => rfl
  | cons c t ih =>
    obtain ⟨v, hv, rfl⟩ := h c (by simp)
    simp only [List.map_cons, unUrl_url_b64 v hv, List.cons.injEq, true_and]
    exact ih (fun x hx => h x (by simp [hx]))

/-- Re-padding the stripped rendering restores the `btoa` output. -/
theorem padBase64_b64Core :
    ∀ bytes : List Nat, padBase64 (b64Core bytes) = btoaChars bytes
  | [] => by simp [b64Core, btoaChars, padBase64]
  | [a] => by
    rw [show b64Core [a] = [b64Char (a / 4), b64Char (a % 4 * 16)] from rfl,
      show btoaChars [a] = [b64Char (a / 4), b64Char (a % 4 * 16), '=', '='] from rfl]
    rfl
  | [a, b] => by
    rw [show b64Core [a, b] = [b64Char (a / 4), b64Char (a % 4 * 16 + b / 16),
        b64Char (b % 16 * 4)] from rfl,
      show btoaChars [a, b] = [b64Char (a / 4), b64Char (a % 4 * 16 + b / 16),
        b64Char (b % 16 * 4), '='] from rfl]
    rfl
  | a :: b :: c :: rest => by
    have ih := padBase64_b64Core rest
    rw [show b64Core (a :: b :: c :: rest) = b64Char (a / 4) ::
        b64Char (a % 4 * 16 + b / 16) :: b64Char (b % 16 * 4 + c / 64) ::
        b64Char (c % 64) :: b64Core rest from rfl,
      show btoaChars (a :: b :: c :: rest) = b64Char (a / 4) ::
        b64Char (a % 4 * 16 + b / 16) :: b64Char (b % 16 * 4 + c / 64) ::
        b64Char (c % 64) :: btoaChars rest from rfl, ← ih]
    unfold padBase64
    simp only [List.length_cons]
    rw [show ∀ n, (n + 1 + 1 + 1 + 1) % 4 = n % 4 from fun n => by omega]
    simp

/-- `atob` inverts `btoa`. -/
theorem atobChars_btoaChars :
    ∀ bytes : List Nat, (∀ b ∈ bytes, b < 256) → atobChars (btoaChars bytes) = some bytes
  | [], _ => by simp [btoaChars, atobChars]
  | [a], hb => by
    have ha : a < 256 := hb a (by simp)
    have h1 : a / 4 < 64 := by omega
    have h2 : a % 4 * 16 < 64 := by omega
    rw [show btoaChars [a] = [b64Char (a / 4), b64Char (a % 4 * 16), '=', '='] from rfl,
      atobChars.eq_def]
    simp only [b64Index_b64Char _ h1, b64Index_b64Char _ h2]
    simp
    omega
  | [a, b], hb => by
    have ha : a < 256 := hb a (by simp)
    have hbb : b < 256 := hb b (by simp)
    have h1 : a / 4 < 64 := by omega
    have h2 : a % 4 * 16 + b / 16 < 64 := by omega
    have h3 : b % 16 * 4 < 64 := by omega
    rw [show btoaChars [a, b] = [b64Char (a / 4), b64Char (a % 4 * 16 + b / 16),
      b64Char (b % 16 * 4), '='] from rfl, atobChars.eq_def]
    simp only [b64Index_b64Char _ h1, b64Index_b64Char _ h2, b64Index_b64Char _ h3,
      b64Char_ne_pad _ h2, b64Char_ne_pad _ h3]
    simp [b64Char_ne_pad _ h2, b64Char_ne_pad _ h3]
    omega
  | a :: b :: c :: rest, hb => by
    have ha : a < 256 := hb a (by simp)
    have hbb : b < 256 := hb b (by simp)
    have hcc : c < 256 := hb c (by simp)
    have h1 : a / 4 < 64 := by omega
    have h2 : a % 4 * 16 + b / 16 < 64 := by omega
    have h3 : b % 16 * 4 + c / 64 < 64 := by omega
    have h4 : c % 64 < 64 := by omega
    have ih := atobChars_btoaChars rest (fun x hx => hb x (by simp [hx]))
    rw [show btoaChars (a :: b :: c :: rest) = b64Char (a / 4) ::
      b64Char (a % 4 * 16 + b / 16) :: b64Char (b % 16 * 4 + c / 64) ::
      b64Char (c % 64) :: btoaChars rest from rfl, atobChars.eq_def]
    simp only [b64Index_b64Char _ h1, b64Index_b64Char _ h2, b64Index_b64Char _ h3,
      b64Index_b64Char _ h4]
    simp [b64Char_ne_pad _ h3, b64Char_ne_pad _ h4, ih]
    omega

/-- URL-safe base64 rendering of a byte list (the composite
`btoa` / `+ → -` / `/ → _` / strip-`=` step of `encodeData`). -/
def bytesToBase64Url (bytes : List Nat) : List Char :=
  dropTrailingEq (List.map urlSafeChar (btoaChars bytes))

/-- Inverse direction used by `decodeData`: undo the replacements, re-pad,
`atob`. -/
def base64UrlToBytes (chars : List Char) : Option (List Nat) :=
  atobChars (padBase64 (List.map unUrlSafeChar chars))

/-- The URL-safe base64 round trip. -/
theorem base64Url_roundtrip (bytes : List Nat) (hb : ∀ b ∈ bytes, b < 256) :
    base64UrlToBytes (bytesToBase64Url bytes) = some bytes := by
  unfold base64UrlToBytes bytesToBase64Url
  rw [dropTrailingEq_btoaChars _ hb, map_unurl_url _ (b64Core_mem _ hb),
    padBase64_b64Core, atobChars_btoaChars _ hb]

/-! ## SHA-256

`calculateChecksum` calls `crypto.subtle.digest('SHA-256', bytes)` (always
available in the Chrome extension host; the `else` branch with the 32-bit
string hash is dead there).  The digest is modelled by an executable SHA-256
over byte lists. -/

/-- Truncation to a 32-bit word. -/
def w32 (n : Nat) : Nat := n % 4294967296

/-- 32-bit right rotation. -/
def rotr32 (k x : Nat) : Nat := w32 (x / 2 ^ k + x % 2 ^ k * 2 ^ (32 - k))

/-- Logical right shift. -/
def shr32 (k x : Nat) : Nat := x / 2 ^ k

def sha256BigSigma0 (x : Nat) : Nat := rotr32 2 x ^^^ rotr32 13 x ^^^ rotr32 22 x

def sha256BigSigma1 (x : Nat) : Nat := rotr32 6 x ^^^ rotr32 11 x ^^^ rotr32 25 x

def sha256SmallSigma0 (x : Nat) : Nat := rotr32 7 x ^^^ rotr32 18 x ^^^ shr32 3 x

def sha256SmallSigma1 (x : Nat) : Nat := rotr32 17 x ^^^ rotr32 19 x ^^^ shr32 10 x

def sha256Ch (x y z : Nat) : Nat := (x &&& y) ^^^ ((x ^^^ 4294967295) &&& z)

def sha256Maj (x y z : Nat) : Nat := (x &&& y) ^^^ (x &&& z) ^^^ (y &&& z)

/-- The 64 SHA-256 round constants. -/
def sha256K : List Nat :=
  [1116352408, 1899447441, 3049323471, 3921009573, 961987163, 1508970993,
   2453635748, 2870763221, 3624381080, 310598401, 607225278, 1426881987,
   1925078388, 2162078206, 2614888103, 3248222580, 3835390401, 4022224774,
   264347078, 604807628, 770255983, 1249150122, 1555081692, 1996064986,
   2554220882, 2821834349, 2952996808, 3210313671, 3336571891, 3584528711,
   113926993, 338241895, 666307205, 773529912, 1294757372, 1396182291,
   1695183700, 1986661051, 2177026350, 2456956037, 2730485921, 2820302411,
   3259730800, 3345764771, 3516065817, 3600352804, 4094571909, 275423344,
   430227734, 506948616, 659060556, 883997877, 958139571, 1322822218,
   1537002063, 1747873779, 1955562222, 2024104815, 2227730452, 2361852424,
   2428436474, 2756734187, 3204031479, 3329325298]

/-- The eight working variables / hash words. -/
structure Sha256State where
  a : Nat
  b : Nat
  c : Nat
  d : Nat
  e : Nat
  f : Nat
  g : Nat
  h : Nat
  deriving DecidableEq

/-- The SHA-256 initial hash value. -/
def sha256Init : Sha256State :=
  ⟨1779033703, 3144134277, 1013904242, 2773480762,
   1359893119, 2600822924, 528734635, 1541459225⟩

/-- Message padding: `0x80`, zeros, 64-bit big-endian bit length. -/
def sha256Pad (msg : List Nat) : List Nat :=
  let len := msg.length
  let bitLen := len * 8
  msg ++ 128 :: List.replicate ((64 - (len + 9) % 64) % 64) 0 ++
    [bitLen / 2 ^ 56 % 256, bitLen / 2 ^ 48 % 256, bitLen / 2 ^ 40 % 256,
     bitLen / 2 ^ 32 % 256, bitLen / 2 ^ 24 % 256, bitLen / 2 ^ 16 % 256,
     bitLen / 2 ^ 8 % 256, bitLen % 256]

/-- Big-endian 32-bit words from bytes. -/
def bytesToWords : List Nat → List Nat
  | [] => []
  | b1 :: r1 =>
    match r1 with
    | b2 :: b3 :: b4 :: rest =>
      (b1 * 16777216 + b2 * 65536 + b3 * 256 + b4) :: bytesToWords rest
    | _ => []

/-- Extend the 16-word schedule to 64 words (`k` extension steps). -/
def sha256Extend : Nat → List Nat → List Nat
  | 0, w => w
  | k + 1, w =>
    sha256Extend k (w ++ [w32 (sha256SmallSigma1 (w.getD (w.length - 2) 0) +
      w.getD (w.length - 7) 0 + sha256SmallSigma0 (w.getD (w.length - 15) 0) +
      w.getD (w.length - 16) 0)])

/-- One compression round. -/
def sha256Round (st : Sha256State) (kw : Nat × Nat) : Sha256State :=
  let t1 := w32 (st.h + sha256BigSigma1 st.e + sha256Ch st.e st.f st.g + kw.1 + kw.2)
  let t2 := w32 (sha256BigSigma0 st.a + sha256Maj st.a st.b st.c)
  ⟨w32 (t1 + t2), st.a, st.b, st.c, w32 (st.d + t1), st.e, st.f, st.g⟩

/-- Process one 64-byte chunk. -/
def sha256Chunk (st : Sha256State) (chunk : List Nat) : Sha256State :=
  let w := sha256Extend 48 (bytesToWords chunk)
  let r := (sha256K.zip w).foldl sha256Round st
  ⟨w32 (st.a + r.a), w32 (st.b + r.b), w32 (st.c + r.c), w32 (st.d + r.d),
   w32 (st.e + r.e), w32 (st.f + r.f), w32 (st.g + r.g), w32 (st.h + r.h)⟩

/-- Fold the padded byte stream through 64-byte chunks. -/
def sha256Process (st : Sha256State) (buf : List Nat) : List Nat → Sha256State
  | [] => st
  | b :: rest =>
    let buf2 := buf ++ [b]
    if buf2.length = 64 then sha256Process (sha256Chunk st buf2) [] rest
    else sha256Process st buf2 rest

/-- Big-endian bytes of a 32-bit word. -/
def wordBytes (w : Nat) : List Nat :=
  [w / 16777216 % 256, w / 65536 % 256, w / 256 % 256, w % 256]

/-- SHA-256 digest (32 bytes) of a byte list. -/
def sha256 (msg : List Nat) : List Nat :=
  let st := sha256Process sha256Init [] (sha256Pad msg)
  wordBytes st.a ++ wordBytes st.b ++ wordBytes st.c ++ wordBytes st.d ++
    wordBytes st.e ++ wordBytes st.f ++ wordBytes st.g ++ wordBytes st.h

/-- The digest has 32 bytes. -/
theorem sha256_length (msg : List Nat) : (sha256 msg).length = 32 := by
  simp [sha256, wordBytes]

/-- The digest values are bytes. -/
theorem sha256_lt (msg : List Nat) : ∀ b ∈ sha256 msg, b < 256 := by
  intro b hb
  simp [sha256, wordBytes] at hb
  rcases hb with ⟨w, hw⟩ | ⟨w, hw⟩ <;> omega

/-! ## Data model

The snapshot-level control record: exactly the fields `encodeFormData` /
`captureForms` map into the serialized snapshot (`id`, `type`, `name`,
`value`, `path`, `tagName`, `attributes`, `validators`, `metadata`).
`attributes` is an insertion-ordered string map, as built by
`extractElementAttributes` from `element.attributes`.  `value` is what
`extractElementValue` produces: `element.checked` (a boolean) for
checkbox/radio inputs, `element.value || ''` (a string) otherwise.
`metadata` carries the five fields every extraction path writes (the
material path adds `matLabel` / `matHint` / `matError` strings; they play no
role in any property below and are not modelled). -/

/-- A JavaScript value stored in a control's `value` field. -/
inductive Value where
  | str (s : String)
  | bool (b : Bool)
  deriving DecidableEq

structure Metadata where
  isDisabled : Bool
  isReadonly : Bool
  isRequired : Bool
  placeholder : String
  className : String
  deriving DecidableEq

structure Control where
  id : String
  type : String
  name : String
  value : Value
  path : String
  tagName : String
  attributes : List (String × String)
  validators : List String
  metadata : Metadata
  deriving DecidableEq

/-- Ambient state read by `encodeFormData`: `Date.now()`,
`window.location.href`, `document.title`, `navigator.userAgent`, and the
platform gzip compressor behind `CompressionStream('gzip')` (an arbitrary
byte-producing function: no property below depends on its output). -/
structure EncodeEnv where
  timestamp : Int
  url : String
  title : String
  userAgent : String
  gzip : String → List Nat

/-- JSON form of a control's `value`. -/
def Value.toJson : Value → Json
  | .str s => .str s
  | .bool b => .bool b

/-- JSON form of the `attributes` map (insertion order preserved, exactly as
`JSON.stringify` serializes the attributes object). -/
def attributesJson (attrs : List (String × String)) : Json :=
  .obj (JsonObj.ofList (attrs.map (fun p => (p.1, Json.str p.2))))

/-- JSON form of the `validators` array. -/
def validatorsJson (vs : List String) : Json :=
  .arr (JsonArr.ofList (vs.map Json.str))

/-- JSON form of the `metadata` record. -/
def metadataJson (m : Metadata) : Json :=
  .obj (.cons "isDisabled" (.bool m.isDisabled) (.cons "isReadonly" (.bool m.isReadonly)
    (.cons "isRequired" (.bool m.isRequired) (.cons "placeholder" (.str m.placeholder)
    (.cons "className" (.str m.className) .nil)))))

/-- The per-control object built by `encodeFormData`'s `formControls.map`. -/
def controlJson (c : Control) : Json :=
  .obj (.cons "id" (.str c.id) (.cons "type" (.str c.type) (.cons "name" (.str c.name)
    (.cons "value" c.value.toJson (.cons "path" (.str c.path)
    (.cons "tagName" (.str c.tagName) (.cons "attributes" (attributesJson c.attributes)
    (.cons "validators" (validatorsJson c.validators)
    (.cons "metadata" (metadataJson c.metadata) .nil)))))))))

namespace ENCODING_CONFIG

def VERSION : String := "1.0"

def SEPARATOR : Char := '|'

def COMPRESSION_THRESHOLD : Nat := 1024

def MAX_SNAPSHOT_SIZE : Nat := 5 * 1024 * 1024

end ENCODING_CONFIG

/-- The snapshot object literal built inside `encodeFormData`. -/
def snapshotJson (env : EncodeEnv) (formControls : List Control) : Json :=
  .obj (.cons "version" (.str ENCODING_CONFIG.VERSION)
    (.cons "timestamp" (.num env.timestamp)
    (.cons "url" (.str env.url) (.cons "title" (.str env.title)
    (.cons "userAgent" (.str env.userAgent)
    (.cons "formControls" (.arr (JsonArr.ofList (formControls.map controlJson)))
      .nil))))))

/-- Result of `compressData`: a plain string below the threshold, a
`Uint8Array` of gzip bytes at or above it. -/
inductive CompressedData where
  | str (s : String)
  | bytes (l : List Nat)
  deriving DecidableEq

namespace DataEncoder

/-- `compressData`: data shorter than `COMPRESSION_THRESHOLD` passes through
unchanged; otherwise (in the Chrome host `'CompressionStream' in window` is
always true) the gzip bytes are collected into a `Uint8Array`, whose cells
store values reduced mod 256.  The `dictionaryCompress` fallback is dead in
this host. -/
def compressData (gzip : String → List Nat) (data : String) : CompressedData :=
  if data.length < ENCODING_CONFIG.COMPRESSION_THRESHOLD then .str data
  else .bytes ((gzip data).map (· % 256))

/-- `JSON.stringify` of a `Uint8Array`: an object with the numeric-string
indices as keys, as produced by the `typeof data === 'string' ? data :
JSON.stringify(data)` line of `encodeData`. -/
def byteArrayJson (l : List Nat) : Json :=
  .obj (JsonObj.ofList (l.enum.map
    (fun p => (String.mk (natToChars p.1), Json.num (p.2 : Int)))))

/-- `encodeData`: stringify non-string input, then URL-safe base64 over the
UTF-8 bytes (`btoa(unescape(encodeURIComponent(s)))` with `+ → -`, `/ → _`
and `=`-stripping). -/
def encodeData (d : CompressedData) : String :=
  let jsonString := match d with
    | .str s => s
    | .bytes l => jsonStringify (byteArrayJson l)
  ⟨bytesToBase64Url (utf8Encode jsonString)⟩

/-- `decodeData`: undo the URL-safe replacements, re-pad, `atob`, and decode
the resulting bytes as UTF-8 text (`decodeURIComponent(escape(...))`).
Either step can fail on malformed input. -/
def decodeData (encodedData : String) : Option String :=
  match base64UrlToBytes encodedData.data with
  | some bytes => utf8Decode bytes
  | none => none

/-- `decompressData` applied to a string returns it unchanged ("Not
compressed").  The gzip branch of the source requires a `Uint8Array`
argument, which `decodeData` (a text decoder) can never produce, so inside
`decodeFormData` this is the only reachable behaviour. -/
def decompressData (data : String) : String := data

/-- `calculateChecksum`: hex digest of SHA-256 over the UTF-8 bytes of the
text, truncated to the first 16 hex characters (`crypto.subtle` is always
present in the Chrome host; the 32-bit fallback hash is dead there). -/
def calculateChecksum (data : String) : String :=
  ⟨((sha256 (utf8Encode data)).foldr (fun b acc => byteHexChars b ++ acc) []).take 16⟩

end DataEncoder

/-- `String.prototype.split` with a single-character separator: splits on
every occurrence; the result is never empty. -/
def jsSplit (sep : Char) : List Char → List (List Char)
  | [] => [[]]
  | c :: rest =>
    match jsSplit sep rest with
    | [] => if c = sep then [[], []] else [[c]]
    | h :: t => if c = sep then [] :: h :: t else (c :: h) :: t

namespace DataEncoder

/-- The decode failure modes of `decodeFormData`, one per `throw` site (the
outer `catch` re-wraps each message into `Data decoding failed: ...`):
`invalidFormat` ↔ "Invalid encoded data format", `unsupportedVersion v` ↔
`"Unsupported version: " ++ v`, `integrityCheckFailed` ↔ "Data integrity
check failed", `payloadError` ↔ a failure thrown by `atob`-decoding,
text-decoding or `JSON.parse` of the payload. -/
inductive DecodeError where
  | invalidFormat
  | unsupportedVersion (v : String)
  | integrityCheckFailed
  | payloadError
  deriving DecidableEq

/-- `encodeFormData`: build the snapshot object from ambient state and the
mapped control records, serialize, size-gate the compression, text-encode,
checksum the encoded text and emit
`` `${VERSION}${SEPARATOR}${checksum}${SEPARATOR}${encoded}` ``. -/
def encodeFormData (env : EncodeEnv) (formControls : List Control) : String :=
  let jsonString := jsonStringify (snapshotJson env formControls)
  let compressed := compressData env.gzip jsonString
  let encoded := encodeData compressed
  let checksum := calculateChecksum encoded
  ENCODING_CONFIG.VERSION ++ ⟨[ENCODING_CONFIG.SEPARATOR]⟩ ++ checksum ++
    ⟨[ENCODING_CONFIG.SEPARATOR]⟩ ++ encoded

/-- `decodeFormData`: split on the separator, require exactly three parts,
check the version, recompute and compare the checksum, and only then
text-decode, decompress, and `JSON.parse` the payload. -/
def decodeFormData (encodedData : String) : Except DecodeError Json :=
  match (jsSplit ENCODING_CONFIG.SEPARATOR encodedData.data).map
      (fun l => (⟨l⟩ : String)) with
  | [version, checksum, data] =>
    if version ≠ ENCODING_CONFIG.VERSION then .error (.unsupportedVersion version)
    else if checksum ≠ calculateChecksum data then .error .integrityCheckFailed
    else
      match decodeData data with
      | none => .error .payloadError
      | some decoded =>
        match jsonParse (decompressData decoded) with
        | some snapshot => .ok snapshot
        | none => .error .payloadError
  | _ => .error .invalidFormat

end DataEncoder

/-! ### Split and checksum shape lemmas -/

theorem jsSplit_cons (sep c : Char) (rest : List Char) :
    jsSplit sep (c :: rest) =
      match jsSplit sep rest with
      | [] => if c = sep then [[], []] else [[c]]
      | h :: t => if c = sep then [] :: h :: t else (c :: h) :: t := rfl

theorem jsSplit_ne_nil (sep : Char) : ∀ l, jsSplit sep l ≠ [] := by
  intro l
  match l with
  | [] => simp [jsSplit]
  | c :: rest =>
    rw [jsSplit_cons]
    rcases h : jsSplit sep rest with _ | ⟨h2, t⟩ <;> by_cases hc : c = sep <;>
      simp [h, hc]

/-- Splitting a separator-free block followed by a separator. -/
theorem jsSplit_append_sep (sep : Char) :
    ∀ A R : List Char, (∀ c ∈ A, c ≠ sep) →
      jsSplit sep (A ++ sep :: R) = A :: jsSplit sep R := by
  intro A
  induction A with
  | nil =>
    intro R _
    rw [List.nil_append, jsSplit_cons]
    rcases h : jsSplit sep R with _ | ⟨h2, t⟩
    · exact absurd h (jsSplit_ne_nil sep R)
    · simp [h]
  | cons c A2 ih =>
    intro R hA
    have hc : c ≠ sep := hA c (by simp)
    rw [List.cons_append, jsSplit_cons, ih R (fun x hx => hA x (by simp [hx]))]
    simp [hc]

/-- Splitting a separator-free block alone. -/
theorem jsSplit_no_sep (sep : Char) :
    ∀ A : List Char, (∀ c ∈ A, c ≠ sep) → jsSplit sep A = [A] := by
  intro A
  induction A with
  | nil => intro _; rfl
  | cons c A2 ih =>
    intro hA
    have hc : c ≠ sep := hA c (by simp)
    rw [jsSplit_cons, ih (fun x hx => hA x (by simp [hx]))]
    simp [hc]

/-- UTF-8 output bytes are bytes. -/
theorem utf8Encode_lt (s : String) : ∀ b ∈ utf8Encode s, b < 256 := by
  unfold utf8Encode
  induction s.data with
  | nil => simp
  | cons c cs ih =>
    simp only [List.foldr_cons, List.mem_append]
    rintro b (hb | hb)
    · exact utf8EncodeChar_lt c b hb
    · exact ih b hb

/-- Hex-digit shape of the checksum characters. -/
theorem calculateChecksum_mem (data : String) :
    ∀ c ∈ (DataEncoder.calculateChecksum data).data, ∃ d, d < 16 ∧ c = Nat.digitChar d := by
  intro c hc
  unfold DataEncoder.calculateChecksum at hc
  simp only at hc
  have hc2 := List.mem_of_mem_take hc
  have hbytes := sha256_lt (utf8Encode data)
  revert hc2
  generalize hdig : sha256 (utf8Encode data) = digest at hbytes
  clear hdig hc
  induction digest with
  | nil => simp
  | cons b t ih =>
    simp only [List.foldr_cons, byteHexChars, List.cons_append, List.mem_cons,
      List.singleton_append]
    have hb : b < 256 := hbytes b (by simp)
    rintro (rfl | rfl | h)
    · exact ⟨b / 16, by omega, rfl⟩
    · exact ⟨b % 16, by omega, rfl⟩
    · exact ih (fun x hx => hbytes x (by simp [hx])) h

/-- The checksum is exactly 16 characters long. -/
theorem calculateChecksum_length (data : String) :
    (DataEncoder.calculateChecksum data).length = 16 := by
  unfold DataEncoder.calculateChecksum
  have hfold : ∀ l : List Nat,
      (l.foldr (fun b acc => byteHexChars b ++ acc) []).length = 2 * l.length := by
    intro l
    induction l with
    | nil => simp
    | cons b t ih =>
      simp only [List.foldr_cons, List.length_append, ih,
        show ∀ b, (byteHexChars b).length = 2 from fun _ => rfl, List.length_cons]
      omega
  simp only [String.length, List.length_take, hfold, sha256_length]
  omega

namespace DataEncoder

/-- The `encoded` component of the token built by `encodeFormData`. -/
def tokenPayload (env : EncodeEnv) (formControls : List Control) : String :=
  encodeData (compressData env.gzip (jsonStringify (snapshotJson env formControls)))

/-- The `checksum` component of the token built by `encodeFormData`. -/
def tokenChecksum (env : EncodeEnv) (formControls : List Control) : String :=
  calculateChecksum (tokenPayload env formControls)

theorem encodeFormData_eq (env : EncodeEnv) (formControls : List Control) :
    encodeFormData env formControls =
      ENCODING_CONFIG.VERSION ++ ⟨[ENCODING_CONFIG.SEPARATOR]⟩ ++
        tokenChecksum env formControls ++ ⟨[ENCODING_CONFIG.SEPARATOR]⟩ ++
        tokenPayload env formControls := rfl

end DataEncoder

theorem digitChar_ne_sep : ∀ d < 16, Nat.digitChar d ≠ '|' := by decide

theorem calculateChecksum_ne_sep (data : String) :
    ∀ c ∈ (DataEncoder.calculateChecksum data).data, c ≠ '|' := by
  intro c hc
  obtain ⟨d, hd, rfl⟩ := calculateChecksum_mem data c hc
  exact digitChar_ne_sep d hd

theorem urlSafe_b64Char_ne_sep : ∀ v < 64, urlSafeChar (b64Char v) ≠ '|' := by decide

theorem urlSafe_b64Char_shape :
    ∀ v < 64, (urlSafeChar (b64Char v)).isAlphanum = true ∨
      urlSafeChar (b64Char v) = '-' ∨ urlSafeChar (b64Char v) = '_' := by decide

/-- Characters of the URL-safe rendering of a byte list. -/
theorem bytesToBase64Url_mem (bytes : List Nat) (hb : ∀ b ∈ bytes, b < 256) :
    ∀ c ∈ bytesToBase64Url bytes, ∃ v, v < 64 ∧ c = urlSafeChar (b64Char v) := by
  unfold bytesToBase64Url
  rw [dropTrailingEq_btoaChars _ hb]
  intro c hc
  rw [List.mem_map] at hc
  obtain ⟨c2, hc2, rfl⟩ := hc
  obtain ⟨v, hv, rfl⟩ := b64Core_mem _ hb c2 hc2
  exact ⟨v, hv, rfl⟩

/-- Payload characters of `encodeData` output. -/
theorem encodeData_mem (d : CompressedData) :
    ∀ c ∈ (DataEncoder.encodeData d).data, ∃ v, v < 64 ∧ c = urlSafeChar (b64Char v) := by
  unfold DataEncoder.encodeData
  match d with
  | .str s => exact bytesToBase64Url_mem _ (utf8Encode_lt s)
  | .bytes l => exact bytesToBase64Url_mem _ (utf8Encode_lt _)

theorem encodeData_ne_sep (d : CompressedData) :
    ∀ c ∈ (DataEncoder.encodeData d).data, c ≠ '|' := by
  intro c hc
  obtain ⟨v, hv, rfl⟩ := encodeData_mem d c hc
  exact urlSafe_b64Char_ne_sep v hv

/-- Splitting a well-formed three-part token. -/
theorem jsSplit_token (v cs p : String)
    (hv : ∀ c ∈ v.data, c ≠ '|') (hcs : ∀ c ∈ cs.data, c ≠ '|')
    (hp : ∀ c ∈ p.data, c ≠ '|') :
    jsSplit '|' (v ++ ⟨['|']⟩ ++ cs ++ ⟨['|']⟩ ++ p).data = [v.data, cs.data, p.data] := by
  have hdata : (v ++ ⟨['|']⟩ ++ cs ++ ⟨['|']⟩ ++ p).data =
      v.data ++ '|' :: (cs.data ++ '|' :: p.data) := by
    simp [String.data_append, List.append_assoc]
  rw [hdata, jsSplit_append_sep _ _ _ hv, jsSplit_append_sep _ _ _ hcs,
    jsSplit_no_sep _ _ hp]

/-- Decoding a well-formed three-part token with the wrong version. -/
theorem decodeFormData_parts (t : String) (A B C : List Char)
    (h : jsSplit '|' t.data = [A, B, C]) :
    DataEncoder.decodeFormData t =
      (if (⟨A⟩ : String) ≠ ENCODING_CONFIG.VERSION then
        .error (.unsupportedVersion ⟨A⟩)
      else if (⟨B⟩ : String) ≠ DataEncoder.calculateChecksum ⟨C⟩ then
        .error .integrityCheckFailed
      else
        match DataEncoder.decodeData ⟨C⟩ with
        | none => .error .payloadError
        | some decoded =>
          match jsonParse (DataEncoder.decompressData decoded) with
          | some snapshot => .ok snapshot
          | none => .error .payloadError) := by
  unfold DataEncoder.decodeFormData
  rw [show ENCODING_CONFIG.SEPARATOR = '|' from rfl, h]
  rfl

/-- A token that does not split into exactly three parts is a format error. -/
theorem decodeFormData_format_error (t : String)
    (h : (jsSplit '|' t.data).length ≠ 3) :
    DataEncoder.decodeFormData t = .error .invalidFormat := by
  unfold DataEncoder.decodeFormData
  rw [show ENCODING_CONFIG.SEPARATOR = '|' from rfl]
  match hs : jsSplit '|' t.data with
  | [] => rfl
  | [_] => rfl
  | [_, _] => rfl
  | [_, _, _] => rw [hs] at h; simp at h
  | _ :: _ :: _ :: _ :: _ => rfl

theorem jsSplit_encodeFormData (env : EncodeEnv) (fc : List Control) :
    jsSplit '|' (DataEncoder.encodeFormData env fc).data =
      [ENCODING_CONFIG.VERSION.data, (DataEncoder.tokenChecksum env fc).data,
        (DataEncoder.tokenPayload env fc).data] := by
  rw [DataEncoder.encodeFormData_eq]
  exact jsSplit_token _ _ _ (by decide) (calculateChecksum_ne_sep _) (encodeData_ne_sep _)

/-- Below the compression threshold the codec round-trips: decoding the
produced token returns exactly the serialized snapshot object. -/
theorem decodeFormData_encodeFormData (env : EncodeEnv) (fc : List Control)
    (hlt : (jsonStringify (snapshotJson env fc)).length <
      ENCODING_CONFIG.COMPRESSION_THRESHOLD) :
    DataEncoder.decodeFormData (DataEncoder.encodeFormData env fc) =
      .ok (snapshotJson env fc) := by
  have hsplit := jsSplit_encodeFormData env fc
  rw [decodeFormData_parts _ _ _ _ hsplit]
  have hcompress : DataEncoder.compressData env.gzip
      (jsonStringify (snapshotJson env fc)) =
      .str (jsonStringify (snapshotJson env fc)) := by
    unfold DataEncoder.compressData
    rw [if_pos hlt]
  have hdecode : DataEncoder.decodeData (DataEncoder.tokenPayload env fc) =
      some (jsonStringify (snapshotJson env fc)) := by
    unfold DataEncoder.tokenPayload
    rw [hcompress]
    unfold DataEncoder.decodeData DataEncoder.encodeData
    simp only
    rw [base64Url_roundtrip _ (utf8Encode_lt _)]
    exact utf8Decode_utf8Encode _
  rw [if_neg (by simp), if_neg (by simp [DataEncoder.tokenChecksum])]
  rw [show (⟨(DataEncoder.tokenPayload env fc).data⟩ : String) =
    DataEncoder.tokenPayload env fc from rfl, hdecode]
  simp [DataEncoder.decompressData, jsonParse_jsonStringify]

/-- At or above the compression threshold decoding the produced token yields
the JSON object of the raw compressed byte array (index keys to byte
values), not the snapshot: the `decompressData` step is unreachable because
`decodeData` always returns a string. -/
theorem decodeFormData_encodeFormData_compressed (env : EncodeEnv) (fc : List Control)
    (hge : ENCODING_CONFIG.COMPRESSION_THRESHOLD ≤
      (jsonStringify (snapshotJson env fc)).length) :
    DataEncoder.decodeFormData (DataEncoder.encodeFormData env fc) =
      .ok (DataEncoder.byteArrayJson
        ((env.gzip (jsonStringify (snapshotJson env fc))).map (· % 256))) := by
  have hsplit := jsSplit_encodeFormData env fc
  rw [decodeFormData_parts _ _ _ _ hsplit]
  have hcompress : DataEncoder.compressData env.gzip
      (jsonStringify (snapshotJson env fc)) =
      .bytes ((env.gzip (jsonStringify (snapshotJson env fc))).map (· % 256)) := by
    unfold DataEncoder.compressData
    rw [if_neg (by omega)]
  have hdecode : DataEncoder.decodeData (DataEncoder.tokenPayload env fc) =
      some (jsonStringify (DataEncoder.byteArrayJson
        ((env.gzip (jsonStringify (snapshotJson env fc))).map (· % 256)))) := by
    unfold DataEncoder.tokenPayload
    rw [hcompress]
    unfold DataEncoder.decodeData DataEncoder.encodeData
    simp only
    rw [base64Url_roundtrip _ (utf8Encode_lt _)]
    exact utf8Decode_utf8Encode _
  rw [if_neg (by simp), if_neg (by simp [DataEncoder.tokenChecksum])]
  rw [show (⟨(DataEncoder.tokenPayload env fc).data⟩ : String) =
    DataEncoder.tokenPayload env fc from rfl, hdecode]
  simp [DataEncoder.decompressData, jsonParse_jsonStringify]

/-! ## Reconciliation engine (`AngularFormSnapshotContent`)

Live DOM elements are modelled by the record of fields the restore path
reads and writes (`type`, `tagName`, `value`, `checked`, `readOnly`,
`disabled`, `options`, `selectedIndex`), plus a `ref` standing for the
object identity that the `processedElements` `Set` of the inspector compares
by reference.  `element.value = x` on a select element is modelled as a
plain field write; the DOM setter's option-matching side effect is outside
the scope of the claims below, all of which concern `restoreSelectValue` and
the report. -/

structure SelectOption where
  value : String
  textContent : String
  index : Int
  deriving DecidableEq

structure Element where
  ref : Nat
  type : String
  tagName : String
  value : String
  checked : Bool
  readOnly : Bool
  disabled : Bool
  options : List SelectOption
  selectedIndex : Int
  deriving DecidableEq

/-- A control record produced by a live extraction pass: descriptor fields
plus the `element` reference (`undefined` is representable, matching the
`!element` guard of `restoreControlValue`). -/
structure LiveControl where
  descr : Control
  element : Option Element
  deriving DecidableEq

/-- JavaScript truthiness of a snapshot value (`Boolean(value)`). -/
def jsTruthy : Value → Bool
  | .str s => s ≠ ""
  | .bool b => b

/-- JavaScript string coercion of a snapshot value. -/
def jsToString : Value → String
  | .str s => s
  | .bool b => if b then "true" else "false"

/-- `value || ''`: the string assigned by the scalar branch. -/
def jsValueOrEmpty (v : Value) : String := if jsTruthy v then jsToString v else ""

/-- ASCII lower-casing of one character (`String.prototype.toLowerCase` on
the ASCII range, which covers every tag name involved). -/
def charToLower (c : Char) : Char :=
  if 65 ≤ c.toNat ∧ c.toNat ≤ 90 then Char.ofNat (c.toNat + 32) else c

/-- `String.prototype.toLowerCase` (ASCII range). -/
def jsToLowerCase (s : String) : String := ⟨s.data.map charToLower⟩

/-- `String.prototype.trim` (common whitespace). -/
def jsTrim (s : String) : String :=
  let ws := fun c => c = ' ' ∨ c = '\t' ∨ c = '\n' ∨ c = '\r'
  ⟨((s.data.dropWhile ws).reverse.dropWhile ws).reverse⟩

/-- `String.prototype.split` with a single-character separator, as strings. -/
def jsSplitStr (sep : Char) (s : String) : List String :=
  (jsSplit sep s.data).map (fun l => (⟨l⟩ : String))

/-- `===` between a DOM string and a snapshot value: true only for an equal
string (a boolean never strictly equals a string). -/
def strictEqStr (s : String) (v : Value) : Bool :=
  match v with
  | .str t => s = t
  | .bool _ => false

namespace CONTENT_SCRIPT_CONFIG

def MAX_FORM_CONTROLS : Nat := 1000

end CONTENT_SCRIPT_CONFIG

namespace DOMUtils

/-- `triggerChangeEvent`: re-assigns the value (`checked` for
checkbox/radio, `value` otherwise, with JavaScript coercions) and dispatches
`input` / `change` / `blur` events, which carry no modelled state. -/
def triggerChangeEvent (element : Element) (value : Value) : Element :=
  if element.type = "checkbox" ∨ element.type = "radio" then
    { element with checked := jsTruthy value }
  else
    { element with value := jsToString value }

end DOMUtils

namespace AngularFormSnapshotContent

/-- `generateControlKey`: the match-key deriver.  The parts are `name`,
`tagName`, `path` and `JSON.stringify(attributes)` (insertion order of the
attributes object preserved, exactly as `JSON.stringify` renders it);
falsy (empty) parts are dropped by `.filter(part => part)` and the rest
joined with `'|'`. -/
def generateControlKey (control : Control) : String :=
  let parts := [control.name, control.tagName, control.path,
    jsonStringify (attributesJson control.attributes)]
  String.intercalate "|" (parts.filter (fun part => part ≠ ""))

/-- `restoreSelectValue`: select the first option whose `value` or
`textContent` strictly equals the snapshot value; otherwise throw
`Option not found: <value>`. -/
def restoreSelectValue (element : Element) (value : Value) : Except String Element :=
  match element.options.find? (fun option =>
      strictEqStr option.value value || strictEqStr option.textContent value) with
  | some matchingOption => .ok { element with selectedIndex := matchingOption.index }
  | none => .error ("Option not found: " ++ jsToString value)

/-- `restoreMaterialValue`: for `mat-select` it clicks a matching
`mat-option` in the document; the click is consumed by framework internals
and writes none of the element fields modelled here.  It never throws. -/
def restoreMaterialValue (element : Element) (value : Value) : Element := element

/-- `restoreControlValue`: fail on a missing element, fail on a readonly or
disabled element, then apply the value by input kind and fire the change
events. -/
def restoreControlValue (currentControl : LiveControl) (snapshotControl : Control) :
    Except String Element :=
  match currentControl.element with
  | none => .error "Control element not found"
  | some element =>
    if element.readOnly || element.disabled then
      .error "Control is readonly or disabled"
    else
      match
        (if element.type = "checkbox" ∨ element.type = "radio" then
          .ok { element with checked := jsTruthy snapshotControl.value }
        else if jsToLowerCase element.tagName = "select" then
          restoreSelectValue element snapshotControl.value
        else
          .ok { element with value := jsValueOrEmpty snapshotControl.value } :
          Except String Element) with
      | .error e => .error e
      | .ok element2 =>
        let element3 := DOMUtils.triggerChangeEvent element2 snapshotControl.value
        .ok (if currentControl.descr.type = "material_form_control" then
          restoreMaterialValue element3 snapshotControl.value
        else element3)

/-- The aggregate outcome of `restoreForms`. -/
structure RestoreReport where
  restoredCount : Nat
  skippedCount : Nat
  errors : List (String × String)
  deriving DecidableEq

/-- JavaScript `Map.set`: overwrite in place, else append. -/
def mapSet (m : List (String × LiveControl)) (k : String) (v : LiveControl) :
    List (String × LiveControl) :=
  if m.any (fun p => p.1 = k) then m.map (fun p => if p.1 = k then (k, v) else p)
  else m ++ [(k, v)]

/-- JavaScript `Map.get`. -/
def mapGet (m : List (String × LiveControl)) (k : String) : Option LiveControl :=
  (m.find? (fun p => p.1 = k)).map (fun p => p.2)

/-- The `currentControlsMap` built at the start of `restoreForms`. -/
def buildControlsMap (currentFormControls : List LiveControl) :
    List (String × LiveControl) :=
  currentFormControls.foldl (fun m c => mapSet m (generateControlKey c.descr) c) []

/-- One iteration of the `for (const snapshotControl of snapshot.formControls)`
loop: a missing counterpart increments `skippedCount`; a counterpart whose
restore throws is caught and recorded as one per-control error entry
(`snapshotControl.name || snapshotControl.path`, message); otherwise
`restoredCount` is incremented. -/
def restoreStep (m : List (String × LiveControl)) (r : RestoreReport)
    (snapshotControl : Control) : RestoreReport :=
  let key := generateControlKey snapshotControl
  match mapGet m key with
  | none => { r with skippedCount := r.skippedCount + 1 }
  | some currentControl =>
    match restoreControlValue currentControl snapshotControl with
    | .ok _ => { r with restoredCount := r.restoredCount + 1 }
    | .error e =>
      { r with errors := r.errors ++
          [(if snapshotControl.name ≠ "" then snapshotControl.name
            else snapshotControl.path, e)] }

/-- The matching-and-applying core of `restoreForms` (lines 404–469): build
the key map over the live controls, then fold the snapshot controls through
`restoreStep`.  It is a total function: no per-control failure escapes the
loop.  (The element mutations are not written back into the map; `restore`
outcomes depend only on element fields the loop never writes, so the report
is unaffected.) -/
def restoreFormsCore (snapshotControls : List Control)
    (currentFormControls : List LiveControl) : RestoreReport :=
  let m := buildControlsMap currentFormControls
  snapshotControls.foldl (restoreStep m) ⟨0, 0, []⟩

/-- The capacity gate of `captureForms`: reject an empty scan, reject more
than `MAX_FORM_CONTROLS` controls, otherwise encode and return the token. -/
def captureForms (formControls : List Control) (env : EncodeEnv) :
    Except String String :=
  if formControls.length = 0 then .error "No form controls found on the page"
  else if formControls.length > CONTENT_SCRIPT_CONFIG.MAX_FORM_CONTROLS then
    .error ("Too many form controls detected (" ++ toString formControls.length ++
      "). Maximum allowed: " ++ toString CONTENT_SCRIPT_CONFIG.MAX_FORM_CONTROLS)
  else .ok (DataEncoder.encodeFormData env formControls)

end AngularFormSnapshotContent

/-! ## Pass merging (`FormControlInspector.inspectAllFormControls`)

The three scan passes (`findAngularFormControls`, `findGenericFormControls`,
`findMaterialFormControls`) query the live DOM; their outputs are
parameters here.  The merge loop pushes a control only when its element
reference is not yet in the `processedElements` set. -/

namespace FormControlInspector

/-- The identity the `processedElements` `Set` stores: the element object
reference (`undefined` when a pass produced a control with no element). -/
def elemKey (c : LiveControl) : Option Nat := c.element.map (fun e => e.ref)

/-- Fold one pass's controls through the claimed-elements check. -/
def addControls (st : List LiveControl × List (Option Nat))
    (pass : List LiveControl) : List LiveControl × List (Option Nat) :=
  pass.foldl (fun st c =>
    if st.2.contains (elemKey c) then st
    else (st.1 ++ [c], st.2 ++ [elemKey c])) st

/-- `inspectAllFormControls`: Angular pass first, then generic, then
Material, all sharing one `processedElements` set. -/
def inspectAllFormControls (angularControls genericControls materialControls :
    List LiveControl) : List LiveControl :=
  (addControls (addControls (addControls ([], []) angularControls)
    genericControls) materialControls).1

end FormControlInspector

/-! ## Element paths

A DOM position is a chain of elements up to the root (`parentElement` of the
topmost is null). -/

inductive DomElem where
  | orphan (tagName id className : String)
  | child (tagName id className : String) (parent : DomElem)
  deriving DecidableEq

namespace FORM_INSPECTOR_CONFIG

def MAX_DEPTH : Nat := 10

end FORM_INSPECTOR_CONFIG

namespace FormControlInspector

/-- One path component: lower-cased tag, then `#id` if the element has an
id, else `.class.list` if it has classes. -/
def selectorOf (tagName id className : String) : String :=
  jsToLowerCase tagName ++
    (if id ≠ "" then "#" ++ id
    else if className ≠ "" then
      "." ++ String.intercalate "." (jsSplitStr ' ' className)
    else "")

/-- The components of `generateElementPath` in `content-script.js`: the
`while` loop walks every ancestor with no depth bound. -/
def generateElementPathList : DomElem → List String
  | .orphan t i c => [selectorOf t i c]
  | .child t i c p => generateElementPathList p ++ [selectorOf t i c]

/-- `FormControlInspector.generateElementPath` (content-script side). -/
def generateElementPath (e : DomElem) : String :=
  String.intercalate " > " (generateElementPathList e)

end FormControlInspector

namespace AngularFormInspector

/-- The form-inspector selector: classes are filtered to those nonempty
after trimming before joining. -/
def selectorOf (tagName id className : String) : String :=
  jsToLowerCase tagName ++
    (if id ≠ "" then "#" ++ id
    else if className ≠ "" then
      (let classes := (jsSplitStr ' ' className).filter (fun cls => jsTrim cls ≠ "")
      if classes.length > 0 then "." ++ String.intercalate "." classes else "")
    else "")

/-- The `while` loop of `generateElementPath` in `form-inspector.js`:
`path.unshift(selector)`, step to the parent, and `break` once
`path.length > MAX_DEPTH` (the check runs after the unshift). -/
def fiPathGo : DomElem → List String → List String
  | .orphan t i c, path => selectorOf t i c :: path
  | .child t i c p, path =>
    let path2 := selectorOf t i c :: path
    if path2.length > FORM_INSPECTOR_CONFIG.MAX_DEPTH then path2 else fiPathGo p path2

/-- The components of `AngularFormInspector.generateElementPath`. -/
def generateElementPathList (e : DomElem) : List String := fiPathGo e []

/-- `AngularFormInspector.generateElementPath` (form-inspector side). -/
def generateElementPath (e : DomElem) : String :=
  String.intercalate " > " (generateElementPathList e)

end AngularFormInspector

/-- Number of elements in the ancestor chain, the element itself included. -/
def DomElem.chainLength : DomElem → Nat
  | .orphan _ _ _ => 1
  | .child _ _ _ p => 1 + p.chainLength

/-! ## Properties of the restore loop -/

namespace AngularFormSnapshotContent

/-- Whether a snapshot control finds a live counterpart and restores. -/
def stepOk (m : List (String × LiveControl)) (c : Control) : Bool :=
  match mapGet m (generateControlKey c) with
  | some cc => (restoreControlValue cc c).toBool
  | none => false

/-- Whether a snapshot control has no live counterpart. -/
def stepSkipped (m : List (String × LiveControl)) (c : Control) : Bool :=
  (mapGet m (generateControlKey c)).isNone

/-- The error entry (if any) a snapshot control contributes. -/
def stepError (m : List (String × LiveControl)) (c : Control) :
    Option (String × String) :=
  match mapGet m (generateControlKey c) with
  | none => none
  | some cc =>
    match restoreControlValue cc c with
    | .ok _ => none
    | .error e => some (if c.name ≠ "" then c.name else c.path, e)

theorem restoreFold_spec (m : List (String × LiveControl)) :
    ∀ (cs : List Control) (r : RestoreReport),
      cs.foldl (restoreStep m) r =
        ⟨r.restoredCount + (cs.filter (stepOk m)).length,
         r.skippedCount + (cs.filter (stepSkipped m)).length,
         r.errors ++ cs.filterMap (stepError m)⟩ := by
  intro cs
  induction cs with
  | nil => intro r; simp
  | cons c t ih =>
    intro r
    rw [List.foldl_cons, ih]
    unfold restoreStep stepOk stepSkipped stepError
    match hm : mapGet m (generateControlKey c) with
    | none =>
      simp only [hm, List.filter_cons, List.filterMap_cons, Option.isNone_none]
      simp [RestoreReport.mk.injEq, Nat.add_assoc, Nat.add_comm]
    | some cc =>
      match hr : restoreControlValue cc c with
      | .ok el =>
        simp only [hm, hr, List.filter_cons, List.filterMap_cons, Except.toBool]
        simp [RestoreReport.mk.injEq, Nat.add_assoc, Nat.add_comm]
      | .error e =>
        simp only [hm, hr, List.filter_cons, List.filterMap_cons, Except.toBool]
        simp [RestoreReport.mk.injEq, Nat.add_assoc, Nat.add_comm]

end AngularFormSnapshotContent

/-! ## Concrete scenario: five controls, one disabled counterpart -/

/-- A plain text control descriptor named `name`. -/
def mkCtrl (name : String) : Control :=
  { id := "", type := "generic_form_control", name := name, value := .str "x",
    path := "p", tagName := "input", attributes := [], validators := [],
    metadata := ⟨false, false, false, "", ""⟩ }

/-- A live text input element; `dis` sets its `disabled` flag. -/
def mkElem (r : Nat) (dis : Bool) : Element :=
  { ref := r, type := "text", tagName := "INPUT", value := "", checked := false,
    readOnly := false, disabled := dis, options := [], selectedIndex := 0 }

/-- Snapshot: five controls `c1` … `c5`. -/
def scenarioControls : List Control :=
  [mkCtrl "c1", mkCtrl "c2", mkCtrl "c3", mkCtrl "c4", mkCtrl "c5"]

/-- Live page: counterparts for all five, `c3`'s element disabled. -/
def scenarioLive : List LiveControl :=
  [⟨mkCtrl "c1", some (mkElem 1 false)⟩, ⟨mkCtrl "c2", some (mkElem 2 false)⟩,
   ⟨mkCtrl "c3", some (mkElem 3 true)⟩, ⟨mkCtrl "c4", some (mkElem 4 false)⟩,
   ⟨mkCtrl "c5", some (mkElem 5 false)⟩]

open AngularFormSnapshotContent in
/-- **C3.** The restore loop isolates per-control failures: it is a total
function whose report counts every unmatched snapshot control as skipped and
every matched-but-failing control as exactly one error entry (so no single
control's failure can abort the loop); a matched counterpart whose live
element is readonly or disabled contributes exactly the error `"Control is
readonly or disabled"`; and on the concrete five-control scenario with one
disabled counterpart the report is `restoredCount = 4`, `skippedCount = 0`,
exactly one error entry. -/
theorem restoreForms_partial_failure_isolation :
    (∀ (snapshotControls : List Control) (currentFormControls : List LiveControl),
      restoreFormsCore snapshotControls currentFormControls =
        ⟨(snapshotControls.filter (stepOk (buildControlsMap currentFormControls))).length,
         (snapshotControls.filter
           (stepSkipped (buildControlsMap currentFormControls))).length,
         snapshotControls.filterMap
           (stepError (buildControlsMap currentFormControls))⟩) ∧
    (∀ (cc : LiveControl) (c : Control) (el : Element), cc.element = some el →
      (el.readOnly || el.disabled) = true →
      restoreControlValue cc c = .error "Control is readonly or disabled") ∧
    restoreFormsCore scenarioControls scenarioLive =
      ⟨4, 0, [("c3", "Control is readonly or disabled")]⟩ := by
  refine ⟨?_, ?_, ?_⟩
  · intro cs cur
    unfold restoreFormsCore
    rw [restoreFold_spec]
    simp
  · intro cc c el hel hro
    unfold restoreControlValue
    rw [hel]
    simp [hro]
  · decide

open AngularFormSnapshotContent in
/-- Witness for the hypothesis-bearing conjunct of the C3 theorem: a matched
counterpart with a disabled element yields exactly the per-control error. -/
theorem restoreForms_partial_failure_isolation_witness :
    restoreControlValue ⟨mkCtrl "w", some (mkElem 9 true)⟩ (mkCtrl "w") =
      .error "Control is readonly or disabled" :=
  restoreForms_partial_failure_isolation.2.1 _ _ (mkElem 9 true) rfl (by decide)

open AngularFormSnapshotContent in
/-- **C8.** Restoring a select element selects the (first) option whose
`value` or label (`textContent`) strictly equals the snapshot value; when no
option matches, it fails with the per-control error `Option not found:
<value>`, and inside the restore loop such a failure only appends one error
entry for that control — the loop's report otherwise continues unchanged. -/
theorem restoreSelect_value_or_label :
    (∀ (el : Element) (v : Value) (opt : SelectOption),
      el.options.find? (fun o => strictEqStr o.value v || strictEqStr o.textContent v) =
        some opt →
      restoreSelectValue el v = .ok { el with selectedIndex := opt.index }) ∧
    (∀ (el : Element) (v : Value),
      el.options.find? (fun o => strictEqStr o.value v || strictEqStr o.textContent v) =
        none →
      restoreSelectValue el v = .error ("Option not found: " ++ jsToString v)) ∧
    (∀ (m : List (String × LiveControl)) (r : RestoreReport) (c : Control)
      (cc : LiveControl) (el : Element),
      mapGet m (generateControlKey c) = some cc →
      cc.element = some el →
      (el.readOnly || el.disabled) = false →
      ¬(el.type = "checkbox" ∨ el.type = "radio") →
      jsToLowerCase el.tagName = "select" →
      el.options.find? (fun o => strictEqStr o.value c.value ||
        strictEqStr o.textContent c.value) = none →
      restoreStep m r c = { r with errors := r.errors ++
        [(if c.name ≠ "" then c.name else c.path,
          "Option not found: " ++ jsToString c.value)] }) := by
  refine ⟨?_, ?_, ?_⟩
  · intro el v opt h
    unfold restoreSelectValue
    rw [h]
  · intro el v h
    unfold restoreSelectValue
    rw [h]
  · intro m r c cc el hm hel hro htype htag hfind
    have hsel : restoreSelectValue el c.value =
        .error ("Option not found: " ++ jsToString c.value) := by
      unfold restoreSelectValue
      rw [hfind]
    have hrcv : restoreControlValue cc c =
        .error ("Option not found: " ++ jsToString c.value) := by
      unfold restoreControlValue
      rw [hel]
      simp [hro, htype, htag, hsel]
    simp [restoreStep, hm, hrcv]

/-- A concrete live select element with one option. -/
def selElem : Element :=
  { ref := 7, type := "select-one", tagName := "SELECT", value := "", checked := false,
    readOnly := false, disabled := false,
    options := [⟨"v1", "Label One", 0⟩, ⟨"v2", "Label Two", 1⟩], selectedIndex := 0 }

open AngularFormSnapshotContent in
/-- Witness for the C8 theorem: a matching label selects the option; a
missing option yields the per-control error entry in the loop. -/
theorem restoreSelect_value_or_label_witness :
    restoreSelectValue selElem (.str "Label Two") =
      .ok { selElem with selectedIndex := 1 } ∧
    restoreSelectValue selElem (.str "zz") = .error "Option not found: zz" ∧
    restoreStep [(generateControlKey (mkCtrl "s"), ⟨mkCtrl "s", some selElem⟩)]
        ⟨0, 0, []⟩ (mkCtrl "s") =
      ⟨0, 0, [("s", "Option not found: x")]⟩ := by
  refine ⟨restoreSelect_value_or_label.1 selElem _ ⟨"v2", "Label Two", 1⟩ (by decide),
    restoreSelect_value_or_label.2.1 selElem _ (by decide), ?_⟩
  have h := restoreSelect_value_or_label.2.2
    [(generateControlKey (mkCtrl "s"), ⟨mkCtrl "s", some selElem⟩)] ⟨0, 0, []⟩
    (mkCtrl "s") ⟨mkCtrl "s", some selElem⟩ selElem (by decide) rfl (by decide)
    (by decide) (by decide) (by decide)
  rw [h]
  rfl

open AngularFormSnapshotContent in
/-- **C4 (amended).** The match-key deriver is a pure total function: the key
is the `'|'`-join of the nonempty parts among `name`, `tagName`, `path` and
`JSON.stringify(attributes)` (attributes rendered in insertion order, not
key-sorted), and it depends on exactly those four descriptor fields — two
descriptors agreeing on them (taken from the same unchanged element at two
different times, whatever their regenerated `id`, `value`, `validators` or
`metadata`) get identical keys. -/
theorem generateControlKey_shape :
    (∀ c : Control, generateControlKey c =
      String.intercalate "|" ([c.name, c.tagName, c.path,
        jsonStringify (attributesJson c.attributes)].filter (fun part => part ≠ ""))) ∧
    (∀ c1 c2 : Control, c1.name = c2.name → c1.tagName = c2.tagName →
      c1.path = c2.path → c1.attributes = c2.attributes →
      generateControlKey c1 = generateControlKey c2) := by
  refine ⟨fun c => rfl, ?_⟩
  intro c1 c2 h1 h2 h3 h4
  unfold generateControlKey
  rw [h1, h2, h3, h4]

open AngularFormSnapshotContent in
/-- Witness for the C4 theorem: two descriptors from the same element at two
extraction times (fresh `id`, same DOM-derived fields) share their key. -/
theorem generateControlKey_shape_witness :
    generateControlKey { mkCtrl "email" with id := "ctrl_1_a" } =
      generateControlKey { mkCtrl "email" with id := "ctrl_2_b" } :=
  generateControlKey_shape.2 _ _ rfl rfl rfl rfl

/-- Two descriptors identical except for attribute insertion order. -/
def ctrlAttrsAB : Control := { mkCtrl "n" with attributes := [("a", "1"), ("b", "2")] }

/-- The same attribute mapping, inserted in the opposite order. -/
def ctrlAttrsBA : Control := { mkCtrl "n" with attributes := [("b", "2"), ("a", "1")] }

open AngularFormSnapshotContent in
/-- **C4 counterexample.** The claim's canonical (key-sorted) rendering is
not what the code computes: two descriptors carrying the same attribute
mapping in different insertion orders (all other fields equal) receive
different match keys, because `generateControlKey` embeds
`JSON.stringify(attributes)` in insertion order. -/
theorem generateControlKey_order_counterexample :
    ctrlAttrsAB.attributes.Perm ctrlAttrsBA.attributes ∧
    ctrlAttrsAB.name = ctrlAttrsBA.name ∧
    ctrlAttrsAB.tagName = ctrlAttrsBA.tagName ∧
    ctrlAttrsAB.path = ctrlAttrsBA.path ∧
    generateControlKey ctrlAttrsAB ≠ generateControlKey ctrlAttrsBA := by
  refine ⟨?_, rfl, rfl, rfl, by decide⟩
  unfold ctrlAttrsAB ctrlAttrsBA
  simp only
  exact List.Perm.swap _ _ _

/-- Helper bound for the form-inspector path loop. -/
theorem fiPathGo_length : ∀ (e : DomElem) (path : List String),
    path.length ≤ FORM_INSPECTOR_CONFIG.MAX_DEPTH →
    (AngularFormInspector.fiPathGo e path).length ≤
      FORM_INSPECTOR_CONFIG.MAX_DEPTH + 1 := by
  intro e
  induction e with
  | orphan t i c =>
    intro path hp
    unfold AngularFormInspector.fiPathGo
    simp only [List.length_cons]
    omega
  | child t i c p ih =>
    intro path hp
    unfold AngularFormInspector.fiPathGo
    by_cases h : (AngularFormInspector.selectorOf t i c :: path).length >
        FORM_INSPECTOR_CONFIG.MAX_DEPTH
    · rw [if_pos h]
      simp only [List.length_cons] at h ⊢
      omega
    · rw [if_neg h]
      exact ih _ (by simp only [List.length_cons] at h ⊢; omega)

/-- **C9 (amended).** Path truncation is asymmetric and off by one: the
form-inspector generator stops only after the path has exceeded
`MAX_DEPTH = 10`, so its paths have at most 11 components; the
content-script generator (the one `captureForms` / `restoreForms` actually
use) walks the entire ancestor chain and emits one component per chain
element with no truncation at all. -/
theorem generateElementPath_depth :
    (∀ e : DomElem, (AngularFormInspector.generateElementPathList e).length ≤
      FORM_INSPECTOR_CONFIG.MAX_DEPTH + 1) ∧
    (∀ e : DomElem, (FormControlInspector.generateElementPathList e).length =
      e.chainLength) := by
  constructor
  · intro e
    exact fiPathGo_length e [] (by simp)
  · intro e
    induction e with
    | orphan t i c => rfl
    | child t i c p ih =>
      rw [show FormControlInspector.generateElementPathList (.child t i c p) =
        FormControlInspector.generateElementPathList p ++
          [FormControlInspector.selectorOf t i c] from rfl,
        show DomElem.chainLength (.child t i c p) = 1 + p.chainLength from rfl]
      simp only [List.length_append, List.length_singleton]
      omega

/-- A chain of `n + 1` nested `div` elements. -/
def deepChain : Nat → DomElem
  | 0 => .orphan "div" "" ""
  | n + 1 => .child "div" "" "" (deepChain n)

/-- **C9 counterexample.** On an element with 11 ancestors the
content-script path generator emits 12 components and the form-inspector
generator emits 11 — both exceed the claimed maximum of 10. -/
theorem generateElementPath_depth_counterexample :
    FORM_INSPECTOR_CONFIG.MAX_DEPTH <
      (FormControlInspector.generateElementPathList (deepChain 11)).length ∧
    FORM_INSPECTOR_CONFIG.MAX_DEPTH <
      (AngularFormInspector.generateElementPathList (deepChain 11)).length := by
  decide

namespace FormControlInspector

/-- Specification-side first-occurrence deduplication by element reference,
used to characterize the merge of `inspectAllFormControls`. -/
def dedupFirst (seen : List (Option Nat)) : List LiveControl → List LiveControl
  | [] => []
  | c :: t =>
    if seen.contains (elemKey c) then dedupFirst seen t
    else c :: dedupFirst (seen ++ [elemKey c]) t

theorem dedupFirst_cons (seen : List (Option Nat)) (c : LiveControl)
    (t : List LiveControl) :
    dedupFirst seen (c :: t) =
      if seen.contains (elemKey c) then dedupFirst seen t
      else c :: dedupFirst (seen ++ [elemKey c]) t := rfl

theorem addControls_spec (pass : List LiveControl) :
    ∀ (acc : List LiveControl) (seen : List (Option Nat)),
      addControls (acc, seen) pass =
        (acc ++ dedupFirst seen pass,
         seen ++ (dedupFirst seen pass).map elemKey) := by
  induction pass with
  | nil => intro acc seen; simp [addControls, dedupFirst]
  | cons c t ih =>
    intro acc seen
    rw [show addControls (acc, seen) (c :: t) =
      addControls (if seen.contains (elemKey c) then (acc, seen)
        else (acc ++ [c], seen ++ [elemKey c])) t from rfl]
    by_cases h : seen.contains (elemKey c)
    · rw [if_pos h, ih, dedupFirst_cons, if_pos h]
    · rw [if_neg h, ih, dedupFirst_cons, if_neg h]
      simp

theorem dedupFirst_append (l1 : List LiveControl) :
    ∀ (seen : List (Option Nat)) (l2 : List LiveControl),
      dedupFirst seen (l1 ++ l2) =
        dedupFirst seen l1 ++
          dedupFirst (seen ++ (dedupFirst seen l1).map elemKey) l2 := by
  induction l1 with
  | nil => intro seen l2; simp [dedupFirst]
  | cons c t ih =>
    intro seen l2
    by_cases h : seen.contains (elemKey c)
    · rw [List.cons_append, dedupFirst_cons, if_pos h, dedupFirst_cons, if_pos h, ih]
    · rw [List.cons_append, dedupFirst_cons, if_neg h, dedupFirst_cons, if_neg h, ih]
      simp

theorem dedupFirst_nodup (l : List LiveControl) :
    ∀ seen : List (Option Nat),
      ((dedupFirst seen l).map elemKey).Nodup ∧
      ∀ k ∈ (dedupFirst seen l).map elemKey, k ∉ seen := by
  induction l with
  | nil => intro seen; simp [dedupFirst]
  | cons c t ih =>
    intro seen
    by_cases h : seen.contains (elemKey c)
    · rw [dedupFirst_cons, if_pos h]
      exact ih seen
    · rw [dedupFirst_cons, if_neg h]
      obtain ⟨hnd, hmem⟩ := ih (seen ++ [elemKey c])
      refine ⟨?_, ?_⟩
      · simp only [List.map_cons, List.nodup_cons]
        refine ⟨fun hc => ?_, hnd⟩
        exact hmem _ hc (by simp)
      · intro k hk
        simp only [List.map_cons, List.mem_cons] at hk
        rcases hk with rfl | hk
        · simpa using h
        · intro hks
          exact hmem k hk (by simp [hks])

end FormControlInspector

open FormControlInspector in
/-- **C10.** The merged inspection result claims each DOM element at most
once: the three passes share one `processedElements` set, so the output is
exactly the first-occurrence deduplication (by element reference) of the
Angular, generic and Material pass outputs in that priority order, and the
element references in the result are pairwise distinct. -/
theorem inspectAllFormControls_no_double_count :
    (∀ angularControls genericControls materialControls : List LiveControl,
      inspectAllFormControls angularControls genericControls materialControls =
        dedupFirst [] (angularControls ++ genericControls ++ materialControls)) ∧
    (∀ angularControls genericControls materialControls : List LiveControl,
      ((inspectAllFormControls angularControls genericControls
        materialControls).map elemKey).Nodup) := by
  have hmain : ∀ a g m : List LiveControl,
      inspectAllFormControls a g m = dedupFirst [] (a ++ g ++ m) := by
    intro a g m
    unfold inspectAllFormControls
    rw [show (([], []) : List LiveControl × List (Option Nat)) =
      (([] : List LiveControl), ([] : List (Option Nat))) from rfl]
    rw [addControls_spec, addControls_spec, addControls_spec]
    rw [List.append_assoc, dedupFirst_append, dedupFirst_append]
    simp
  refine ⟨hmain, fun a g m => ?_⟩
  rw [hmain]
  exact (dedupFirst_nodup _ []).1

/-- Lower-case hexadecimal digit characters. -/
def isLowerHexDigit (c : Char) : Bool :=
  (48 ≤ c.toNat && c.toNat ≤ 57) || (97 ≤ c.toNat && c.toNat ≤ 102)

/-- The URL-safe base64 alphabet (letters, digits, `-`, `_`). -/
def isUrlSafeB64Char (c : Char) : Bool := c.isAlphanum || c = '-' || c = '_'

theorem digitChar_isLowerHex : ∀ d < 16, isLowerHexDigit (Nat.digitChar d) = true := by
  decide

theorem urlSafe_b64Char_isUrlSafe :
    ∀ v < 64, isUrlSafeB64Char (urlSafeChar (b64Char v)) = true := by decide

/-- UTF-16 code units of a string (what `charCodeAt` walks over): BMP
scalars are their own code unit, astral scalars become a surrogate pair. -/
def utf16CodeUnits (s : String) : List Nat :=
  s.data.foldr (fun c acc =>
    (if c.toNat < 65536 then [c.toNat]
     else [(c.toNat - 65536) / 1024 + 55296, (c.toNat - 65536) % 1024 + 56320]) ++
      acc) []

/-- JavaScript `ToInt32` (what `x & x` applies to a number). -/
def toInt32 (n : Int) : Int :=
  if n % 4294967296 < 2147483648 then n % 4294967296
  else n % 4294967296 - 4294967296

/-- One iteration of the fallback hash loop:
`hash = ((hash << 5) - hash) + char; hash = hash & hash`. -/
def fallbackStep (hash : Int) (char : Nat) : Int :=
  toInt32 (toInt32 (hash * 32) - hash + char)

/-- `Number.prototype.toString(16)` for a natural number: lowercase hex
digits, most significant first, `"0"` for zero. -/
def natToHexAux : Nat → Nat → List Char
  | 0, _ => []
  | fuel + 1, n =>
    if n < 16 then [Nat.digitChar n]
    else natToHexAux fuel (n / 16) ++ [Nat.digitChar (n % 16)]

def natToHex (n : Nat) : List Char := natToHexAux (n + 1) n

/-- `String.prototype.padStart`. -/
def padStart (len : Nat) (c : Char) (l : List Char) : List Char :=
  List.replicate (len - l.length) c ++ l

namespace DataEncoder

/-- The `calculateChecksum` branch taken when `crypto.subtle` is absent:
the 32-bit accumulator hash over the UTF-16 code units of the text, then
`Math.abs(hash).toString(16).padStart(8, '0')`. -/
def fallbackChecksum (data : String) : String :=
  ⟨padStart 8 '0' (natToHex ((utf16CodeUnits data).foldl fallbackStep 0).natAbs)⟩

/-- `calculateChecksum` with its `if (crypto.subtle)` guard.  `crypto.subtle`
is gated on secure contexts, and this MAIN-world content script is injected
into `<all_urls>`, so both branches are reachable; `subtle` records which
host the call runs in.  `calculateChecksum` above is the `subtle = true`
branch. -/
def calculateChecksumIn (subtle : Bool) (data : String) : String :=
  if subtle then calculateChecksum data else fallbackChecksum data

/-- `encodeFormData` in a host where `crypto.subtle` availability is
`subtle` (`encodeFormData` above is its `subtle = true` instance, see
`encodeFormDataIn_secure`). -/
def encodeFormDataIn (subtle : Bool) (env : EncodeEnv)
    (formControls : List Control) : String :=
  let jsonString := jsonStringify (snapshotJson env formControls)
  let compressed := compressData env.gzip jsonString
  let encoded := encodeData compressed
  let checksum := calculateChecksumIn subtle encoded
  ENCODING_CONFIG.VERSION ++ ⟨[ENCODING_CONFIG.SEPARATOR]⟩ ++ checksum ++
    ⟨[ENCODING_CONFIG.SEPARATOR]⟩ ++ encoded

theorem encodeFormDataIn_secure (env : EncodeEnv) (fc : List Control) :
    encodeFormDataIn true env fc = encodeFormData env fc := rfl

end DataEncoder

theorem toInt32_bounds (n : Int) :
    -2147483648 ≤ toInt32 n ∧ toInt32 n < 2147483648 := by
  unfold toInt32
  have h1 : 0 ≤ n % 4294967296 := Int.emod_nonneg n (by decide)
  have h2 : n % 4294967296 < 4294967296 := Int.emod_lt_of_pos n (by decide)
  split_ifs with h <;> omega

theorem foldl_fallbackStep_bounds (l : List Nat) :
    ∀ h : Int, -2147483648 ≤ h ∧ h < 2147483648 →
      -2147483648 ≤ l.foldl fallbackStep h ∧
        l.foldl fallbackStep h < 2147483648 := by
  induction l with
  | nil => intro h hh; exact hh
  | cons c t ih =>
    intro h hh
    exact ih (fallbackStep h c) (toInt32_bounds _)

theorem natToHexAux_length : ∀ (fuel n d : Nat), n < fuel → n < 16 ^ d → 0 < d →
    (natToHexAux fuel n).length ≤ d := by
  intro fuel
  induction fuel with
  | zero => intro n d h; omega
  | succ f ih =>
    intro n d hn hd hdpos
    simp only [natToHexAux]
    split_ifs with h16
    · simpa using hdpos
    · have hd2 : 2 ≤ d := by
        by_contra hcon
        push_neg at hcon
        have hd1 : d = 1 := by omega
        subst hd1
        simp at hd
        omega
      have hdiv : n / 16 < f := by
        have := Nat.div_lt_self (show 0 < n by omega) (show 1 < 16 by omega)
        omega
      have hdivlt : n / 16 < 16 ^ (d - 1) := by
        rw [Nat.div_lt_iff_lt_mul (show 0 < 16 by omega)]
        calc n < 16 ^ d := hd
          _ = 16 ^ (d - 1) * 16 := by
              rw [← pow_succ]
              congr 1
              omega
      have := ih (n / 16) (d - 1) hdiv hdivlt (by omega)
      simp only [List.length_append, List.length_singleton]
      omega

theorem natToHexAux_mem : ∀ (fuel n : Nat), ∀ c ∈ natToHexAux fuel n,
    ∃ d, d < 16 ∧ c = Nat.digitChar d := by
  intro fuel
  induction fuel with
  | zero => intro n c hc; simp [natToHexAux] at hc
  | succ f ih =>
    intro n c hc
    simp only [natToHexAux] at hc
    split_ifs at hc with h16
    · simp at hc
      exact ⟨n, by omega, hc⟩
    · rw [List.mem_append] at hc
      rcases hc with hc | hc
      · exact ih _ c hc
      · simp at hc
        exact ⟨n % 16, by omega, hc⟩

theorem padStart_length (n : Nat) (c : Char) (l : List Char) (h : l.length ≤ n) :
    (padStart n c l).length = n := by
  simp only [padStart, List.length_append, List.length_replicate]
  omega

/-- The fallback checksum is exactly 8 characters long (`Math.abs` of an
Int32 is at most `2^31 = 0x80000000`, 8 hex digits). -/
theorem fallbackChecksum_length (data : String) :
    (DataEncoder.fallbackChecksum data).length = 8 := by
  have hb := foldl_fallbackStep_bounds (utf16CodeUnits data) 0 (by decide)
  have habs : ((utf16CodeUnits data).foldl fallbackStep 0).natAbs < 4294967296 := by
    omega
  have hlen : (natToHex ((utf16CodeUnits data).foldl fallbackStep 0).natAbs).length ≤ 8 :=
    natToHexAux_length _ _ 8 (Nat.lt_succ_self _)
      (lt_of_lt_of_le habs (by norm_num)) (by omega)
  exact padStart_length 8 '0' _ hlen

/-- Every character of the fallback checksum is a lowercase hex digit. -/
theorem fallbackChecksum_mem (data : String) :
    ∀ c ∈ (DataEncoder.fallbackChecksum data).data, isLowerHexDigit c = true := by
  intro c hc
  simp only [DataEncoder.fallbackChecksum, padStart, List.mem_append,
    List.mem_replicate] at hc
  rcases hc with hc | hc
  · rw [hc.2]
    decide
  · obtain ⟨d, hd, rfl⟩ := natToHexAux_mem _ _ c hc
    exact digitChar_isLowerHex d hd

/-- **C7 (amended).** In every host, every token produced by
`encodeFormData` has the shape `version ‖ SEP ‖ checksum ‖ SEP ‖ payload`,
where the middle segment is the checksum computed over the encoded payload
text — by truncated SHA-256 when `crypto.subtle` is available, by the
32-bit fallback hash when it is not — and consists of lowercase hexadecimal
digit characters only, and the payload segment uses only the URL-safe
base64 alphabet.  The checksum is 16 characters long only in secure
contexts; where `crypto.subtle` is absent (this MAIN-world content script
is also injected into plain-HTTP pages) it is 8 characters long. -/
theorem encodeFormData_token_format :
    ∀ (subtle : Bool) (env : EncodeEnv) (fc : List Control),
      DataEncoder.encodeFormDataIn subtle env fc =
        ENCODING_CONFIG.VERSION ++ ⟨[ENCODING_CONFIG.SEPARATOR]⟩ ++
          DataEncoder.calculateChecksumIn subtle (DataEncoder.tokenPayload env fc) ++
          ⟨[ENCODING_CONFIG.SEPARATOR]⟩ ++ DataEncoder.tokenPayload env fc ∧
      (DataEncoder.calculateChecksumIn subtle
        (DataEncoder.tokenPayload env fc)).length = (if subtle then 16 else 8) ∧
      ((DataEncoder.calculateChecksumIn subtle
        (DataEncoder.tokenPayload env fc)).data.all isLowerHexDigit) = true ∧
      ((DataEncoder.tokenPayload env fc).data.all isUrlSafeB64Char) = true := by
  intro subtle env fc
  refine ⟨rfl, ?_, ?_, ?_⟩
  · cases subtle
    · exact fallbackChecksum_length _
    · exact calculateChecksum_length _
  · cases subtle
    · rw [List.all_eq_true]
      exact fallbackChecksum_mem _
    · rw [List.all_eq_true]
      intro c hc
      obtain ⟨d, hd, rfl⟩ := calculateChecksum_mem _ c hc
      exact digitChar_isLowerHex d hd
  · rw [List.all_eq_true]
    intro c hc
    obtain ⟨v, hv, rfl⟩ := encodeData_mem _ c hc
    exact urlSafe_b64Char_isUrlSafe v hv

/-- A concrete ambient environment (gzip modelled as a concrete function). -/
def env1 : EncodeEnv :=
  { timestamp := 1, url := "u", title := "t", userAgent := "ua", gzip := fun _ => [] }

/-- **C7 counterexample.** On a page without `crypto.subtle` the checksum
segment of a produced token is 8 characters, not 16: the universal
"exactly 16 hexadecimal characters" of the original claim fails there. -/
theorem checksum_fallback_counterexample :
    DataEncoder.encodeFormDataIn false env1 [] =
      ENCODING_CONFIG.VERSION ++ ⟨[ENCODING_CONFIG.SEPARATOR]⟩ ++
        DataEncoder.calculateChecksumIn false (DataEncoder.tokenPayload env1 []) ++
        ⟨[ENCODING_CONFIG.SEPARATOR]⟩ ++ DataEncoder.tokenPayload env1 [] ∧
    (DataEncoder.calculateChecksumIn false
      (DataEncoder.tokenPayload env1 [])).length = 8 ∧
    (DataEncoder.calculateChecksumIn false
      (DataEncoder.tokenPayload env1 [])).length ≠ 16 := by
  refine ⟨rfl, fallbackChecksum_length _, ?_⟩
  rw [show (DataEncoder.calculateChecksumIn false
    (DataEncoder.tokenPayload env1 [])).length = 8 from fallbackChecksum_length _]
  decide

/-- The JSON object of a serialized `Uint8Array` is never the snapshot
object: its first key is a numeral (or it is empty), while the snapshot
object starts with the key `version`. -/
theorem byteArrayJson_ne_snapshotJson (l : List Nat) (env : EncodeEnv)
    (fc : List Control) : DataEncoder.byteArrayJson l ≠ snapshotJson env fc := by
  match l with
  | [] =>
    intro h
    simp [DataEncoder.byteArrayJson, snapshotJson, JsonObj.ofList] at h
  | b :: t =>
    intro h
    unfold DataEncoder.byteArrayJson snapshotJson at h
    rw [show (b :: t).enum = (0, b) :: (t.enumFrom 1) from rfl] at h
    simp only [List.map_cons, JsonObj.ofList, Json.obj.injEq, JsonObj.cons.injEq] at h
    have hk := h.1
    rw [show natToChars 0 = ['0'] from rfl] at hk
    exact absurd hk (by decide)

open DataEncoder in
/-- **C1.** At or above the compression threshold the encode/decode round
trip is broken: decoding the token produced by `encodeFormData` succeeds but
returns the JSON object of the raw compressed byte array (numeric-string
keys to byte values) — never the snapshot, whatever bytes the platform's
gzip produced.  (`decodeData` always yields a string, so the string-typed
input makes `decompressData` return its argument unchanged and the gzip
branch is unreachable; below the threshold the round trip does hold, see
`decodeFormData_encodeFormData`.) -/
theorem decodeFormData_encodeFormData_compressed_mismatch :
    ∀ (env : EncodeEnv) (fc : List Control),
      ENCODING_CONFIG.COMPRESSION_THRESHOLD ≤
        (jsonStringify (snapshotJson env fc)).length →
      decodeFormData (encodeFormData env fc) =
        .ok (byteArrayJson
          ((env.gzip (jsonStringify (snapshotJson env fc))).map (· % 256))) ∧
      byteArrayJson ((env.gzip (jsonStringify (snapshotJson env fc))).map (· % 256)) ≠
        snapshotJson env fc := by
  intro env fc hge
  exact ⟨decodeFormData_encodeFormData_compressed env fc hge,
    byteArrayJson_ne_snapshotJson _ env fc⟩

/-- A control whose value alone pushes the serialized snapshot over the
compression threshold. -/
def bigControl : Control := { mkCtrl "big" with value := .str ⟨List.replicate 1200 'a'⟩ }

open DataEncoder in
/-- Witness for the C1 theorem: a concrete snapshot whose serialization is
at least 1 KiB long decodes to the byte-array object, not the snapshot. -/
theorem decodeFormData_encodeFormData_compressed_mismatch_witness :
    ENCODING_CONFIG.COMPRESSION_THRESHOLD ≤
      (jsonStringify (snapshotJson env1 [bigControl])).length ∧
    (decodeFormData (encodeFormData env1 [bigControl]) =
      .ok (byteArrayJson
        ((env1.gzip (jsonStringify (snapshotJson env1 [bigControl]))).map (· % 256))) ∧
    byteArrayJson
        ((env1.gzip (jsonStringify (snapshotJson env1 [bigControl]))).map (· % 256)) ≠
      snapshotJson env1 [bigControl]) :=
  ⟨by decide, decodeFormData_encodeFormData_compressed_mismatch env1 [bigControl]
    (by decide)⟩

/-! ## C6: purity of `encodeFormData` -/

/-- Below the compression threshold the payload is the URL-safe base64 of
the UTF-8 bytes of the serialized snapshot (the gzip function is not
consulted). -/
theorem tokenPayload_below (env : EncodeEnv) (fc : List Control)
    (h : (jsonStringify (snapshotJson env fc)).length <
      ENCODING_CONFIG.COMPRESSION_THRESHOLD) :
    DataEncoder.tokenPayload env fc =
      ⟨bytesToBase64Url (utf8Encode (jsonStringify (snapshotJson env fc)))⟩ := by
  unfold DataEncoder.tokenPayload DataEncoder.compressData
  rw [if_pos h]
  rfl

/-- URL-safe base64 over UTF-8 bytes is injective on strings. -/
theorem b64url_utf8_inj {s t : String}
    (h : bytesToBase64Url (utf8Encode s) = bytesToBase64Url (utf8Encode t)) :
    s = t := by
  have h1 := base64Url_roundtrip (utf8Encode s) (utf8Encode_lt s)
  rw [h, base64Url_roundtrip (utf8Encode t) (utf8Encode_lt t)] at h1
  have henc : utf8Encode t = utf8Encode s := Option.some.injEq _ _ ▸ h1
  have hd := utf8Decode_utf8Encode s
  rw [← henc, utf8Decode_utf8Encode t] at hd
  exact (Option.some.inj hd).symm

/-- Below the threshold two tokens agree exactly when the serialized
snapshots agree. -/
theorem encodeFormData_inj_below (env env' : EncodeEnv) (fc fc' : List Control)
    (h : (jsonStringify (snapshotJson env fc)).length <
      ENCODING_CONFIG.COMPRESSION_THRESHOLD)
    (h' : (jsonStringify (snapshotJson env' fc')).length <
      ENCODING_CONFIG.COMPRESSION_THRESHOLD) :
    DataEncoder.encodeFormData env fc = DataEncoder.encodeFormData env' fc' ↔
      jsonStringify (snapshotJson env fc) = jsonStringify (snapshotJson env' fc') := by
  constructor
  · intro heq
    have hsp := congrArg (fun s : String => jsSplit '|' s.data) heq
    simp only [jsSplit_encodeFormData, List.cons.injEq, true_and, and_true] at hsp
    have hp := hsp.2
    rw [tokenPayload_below env fc h, tokenPayload_below env' fc' h'] at hp
    exact b64url_utf8_inj hp
  · intro hj
    rw [DataEncoder.encodeFormData_eq, DataEncoder.encodeFormData_eq]
    unfold DataEncoder.tokenChecksum
    rw [tokenPayload_below env fc h, tokenPayload_below env' fc' h', hj]

/-- **C6.** `encodeFormData` is deterministic in — and depends on exactly —
the serialized snapshot object, which embeds the ambient capture state
(`Date.now()` timestamp, page URL, title and user agent) alongside the
control descriptors: below the compression threshold two invocations
produce the same token if and only if the serialized snapshots agree.  It is
therefore *not* a function of the control descriptors alone: two invocations
on the same descriptor sequence at different clock readings serialize
different snapshots and so produce different tokens (see the timestamp
counterexample below). -/
theorem encodeFormData_pure_in_snapshot :
    ∀ (env env' : EncodeEnv) (fc fc' : List Control),
      (jsonStringify (snapshotJson env fc)).length <
        ENCODING_CONFIG.COMPRESSION_THRESHOLD →
      (jsonStringify (snapshotJson env' fc')).length <
        ENCODING_CONFIG.COMPRESSION_THRESHOLD →
      (DataEncoder.encodeFormData env fc = DataEncoder.encodeFormData env' fc' ↔
        jsonStringify (snapshotJson env fc) =
          jsonStringify (snapshotJson env' fc')) :=
  fun env env' fc fc' h h' => encodeFormData_inj_below env env' fc fc' h h'

/-- Same environment except for the clock reading embedded by
`encodeFormData`. -/
def env2 : EncodeEnv := { env1 with timestamp := 2 }

/-- Witness for the C6 theorem at two concrete environments. -/
theorem encodeFormData_pure_in_snapshot_witness :
    (jsonStringify (snapshotJson env1 [])).length <
      ENCODING_CONFIG.COMPRESSION_THRESHOLD ∧
    (jsonStringify (snapshotJson env2 [])).length <
      ENCODING_CONFIG.COMPRESSION_THRESHOLD ∧
    (DataEncoder.encodeFormData env1 [] = DataEncoder.encodeFormData env2 [] ↔
      jsonStringify (snapshotJson env1 []) = jsonStringify (snapshotJson env2 [])) :=
  ⟨by decide, by decide,
    encodeFormData_pure_in_snapshot env1 env2 [] [] (by decide) (by decide)⟩

/-- Counterexample to invocation-time independence: the same (empty) control
sequence encoded under two clock readings that differ only in the
`Date.now()` value yields two different tokens. -/
theorem encodeFormData_timestamp_counterexample :
    DataEncoder.encodeFormData env1 [] ≠ DataEncoder.encodeFormData env2 [] := by
  intro h
  have hj := (encodeFormData_inj_below env1 env2 [] [] (by decide) (by decide)).mp h
  exact absurd hj (by decide)

/-! ## C5: capacity gating in the capture/encode path -/

/-- Every character contributes at least one output character to its JSON
escape. -/
theorem escapeChar_len (c : Char) : 1 ≤ (escapeChar c).length := by
  unfold escapeChar
  split_ifs <;> simp [byteHexChars]

/-- A JSON string literal is at least as long as the string it renders. -/
theorem length_le_stringifyString (s : String) :
    s.length ≤ (stringifyString s).length := by
  unfold stringifyString
  have h : ∀ l : List Char,
      l.length ≤ (l.foldr (fun c acc => escapeChar c ++ acc) ['"']).length := by
    intro l
    induction l with
    | nil => simp
    | cons c t ih =>
      simp only [List.foldr_cons, List.length_append, List.length_cons]
      have := escapeChar_len c
      omega
  have h2 := h s.data
  simp only [List.length_cons, String.length]
  omega

theorem objRest_le_obj_cons (k : String) (v : Json) (tl : JsonObj) :
    (stringifyObjRest tl).length ≤ (stringifyObj (.cons k v tl)).length := by
  simp only [stringifyObj, List.length_append, List.length_cons]
  omega

theorem objRest_le_objRest_cons (k : String) (v : Json) (tl : JsonObj) :
    (stringifyObjRest tl).length ≤ (stringifyObjRest (.cons k v tl)).length := by
  simp only [stringifyObjRest, List.length_append, List.length_cons]
  omega

theorem json_le_objRest_cons (k : String) (v : Json) (tl : JsonObj) :
    (stringifyJson v).length ≤ (stringifyObjRest (.cons k v tl)).length := by
  simp only [stringifyObjRest, List.length_append, List.length_cons]
  omega

theorem obj_le_json_obj (F : JsonObj) :
    (stringifyObj F).length ≤ (stringifyJson (.obj F)).length := by
  simp only [stringifyJson, List.length_append, List.length_cons]
  omega

theorem json_le_arr_singleton (j : Json) :
    (stringifyJson j).length ≤ (stringifyJson (.arr (.cons j .nil))).length := by
  simp only [stringifyJson, stringifyArr, stringifyArrRest, List.length_append,
    List.length_cons, List.length_nil]
  omega

/-- The serialized snapshot of a single string-valued control is at least as
long as the control's value: serialization never shrinks the value text. -/
theorem value_length_le_snapshot (env : EncodeEnv) (c : Control) (v : String)
    (hv : c.value = .str v) :
    v.length ≤ (jsonStringify (snapshotJson env [c])).length := by
  show v.length ≤ (stringifyJson (snapshotJson env [c])).length
  calc v.length
      ≤ (stringifyString v).length := length_le_stringifyString v
    _ = (stringifyJson c.value.toJson).length := by rw [hv]; rfl
    _ ≤ (stringifyObjRest (.cons "value" c.value.toJson
          (.cons "path" (.str c.path) (.cons "tagName" (.str c.tagName)
          (.cons "attributes" (attributesJson c.attributes)
          (.cons "validators" (validatorsJson c.validators)
          (.cons "metadata" (metadataJson c.metadata) .nil))))))).length :=
        json_le_objRest_cons _ _ _
    _ ≤ (stringifyObjRest (.cons "name" (.str c.name)
          (.cons "value" c.value.toJson
          (.cons "path" (.str c.path) (.cons "tagName" (.str c.tagName)
          (.cons "attributes" (attributesJson c.attributes)
          (.cons "validators" (validatorsJson c.validators)
          (.cons "metadata" (metadataJson c.metadata) .nil)))))))).length :=
        objRest_le_objRest_cons _ _ _
    _ ≤ (stringifyObjRest (.cons "type" (.str c.type) (.cons "name" (.str c.name)
          (.cons "value" c.value.toJson
          (.cons "path" (.str c.path) (.cons "tagName" (.str c.tagName)
          (.cons "attributes" (attributesJson c.attributes)
          (.cons "validators" (validatorsJson c.validators)
          (.cons "metadata" (metadataJson c.metadata) .nil))))))))).length :=
        objRest_le_objRest_cons _ _ _
    _ ≤ (stringifyObj (.cons "id" (.str c.id)
          (.cons "type" (.str c.type) (.cons "name" (.str c.name)
          (.cons "value" c.value.toJson
          (.cons "path" (.str c.path) (.cons "tagName" (.str c.tagName)
          (.cons "attributes" (attributesJson c.attributes)
          (.cons "validators" (validatorsJson c.validators)
          (.cons "metadata" (metadataJson c.metadata) .nil)))))))))).length :=
        objRest_le_obj_cons _ _ _
    _ ≤ (stringifyJson (controlJson c)).length := obj_le_json_obj _
    _ ≤ (stringifyJson (.arr (.cons (controlJson c) .nil))).length :=
        json_le_arr_singleton _
    _ ≤ (stringifyObjRest (.cons "formControls"
          (.arr (.cons (controlJson c) .nil)) .nil)).length :=
        json_le_objRest_cons _ _ _
    _ ≤ (stringifyObjRest (.cons "userAgent" (.str env.userAgent)
          (.cons "formControls"
          (.arr (.cons (controlJson c) .nil)) .nil))).length :=
        objRest_le_objRest_cons _ _ _
    _ ≤ (stringifyObjRest (.cons "title" (.str env.title)
          (.cons "userAgent" (.str env.userAgent)
          (.cons "formControls"
          (.arr (.cons (controlJson c) .nil)) .nil)))).length :=
        objRest_le_objRest_cons _ _ _
    _ ≤ (stringifyObjRest (.cons "url" (.str env.url)
          (.cons "title" (.str env.title)
          (.cons "userAgent" (.str env.userAgent)
          (.cons "formControls"
          (.arr (.cons (controlJson c) .nil)) .nil))))).length :=
        objRest_le_objRest_cons _ _ _
    _ ≤ (stringifyObjRest (.cons "timestamp" (.num env.timestamp)
          (.cons "url" (.str env.url)
          (.cons "title" (.str env.title)
          (.cons "userAgent" (.str env.userAgent)
          (.cons "formControls"
          (.arr (.cons (controlJson c) .nil)) .nil)))))).length :=
        objRest_le_objRest_cons _ _ _
    _ ≤ (stringifyObj (.cons "version" (.str ENCODING_CONFIG.VERSION)
          (.cons "timestamp" (.num env.timestamp)
          (.cons "url" (.str env.url)
          (.cons "title" (.str env.title)
          (.cons "userAgent" (.str env.userAgent)
          (.cons "formControls"
          (.arr (.cons (controlJson c) .nil)) .nil))))))).length :=
        objRest_le_obj_cons _ _ _
    _ ≤ (stringifyJson (snapshotJson env [c])).length := obj_le_json_obj _

/-- String doubling, used to build a large value without a large literal. -/
def dupString (s : String) : String := s ++ s

theorem dupString_length (n : Nat) (s : String) :
    (dupString^[n] s).length = 2 ^ n * s.length := by
  induction n with
  | zero => simp
  | succ k ih =>
    rw [Function.iterate_succ_apply', dupString, String.length_append, ih,
      pow_succ]
    ring

/-- A single control whose value alone exceeds `MAX_SNAPSHOT_SIZE`
(6 · 2^20 = 6291456 characters > 5 · 2^20). -/
def hugeControl : Control :=
  { mkCtrl "huge" with value := .str (dupString^[20] "aaaaaa") }

/-- **C5.** The capture/encode path enforces only the control-count ceiling:
when the scan yields more than `MAX_FORM_CONTROLS` controls, `captureForms`
raises the capacity error before any encoding or compression is attempted —
the result is this error for every ambient environment (in particular for
every compressor), and no token is produced.  The serialized-size half of
the original claim is false: `MAX_SNAPSHOT_SIZE` is defined but never
checked, so a snapshot far above 5 MiB with few controls is still encoded
(see the oversize counterexample below). -/
theorem captureForms_capacity (fc : List Control) (env env' : EncodeEnv)
    (h : CONTENT_SCRIPT_CONFIG.MAX_FORM_CONTROLS < fc.length) :
    AngularFormSnapshotContent.captureForms fc env =
      .error ("Too many form controls detected (" ++ toString fc.length ++
        "). Maximum allowed: " ++ toString CONTENT_SCRIPT_CONFIG.MAX_FORM_CONTROLS) ∧
    AngularFormSnapshotContent.captureForms fc env =
      AngularFormSnapshotContent.captureForms fc env' ∧
    ∀ t, AngularFormSnapshotContent.captureForms fc env ≠ .ok t := by
  have h0 : fc.length ≠ 0 := by omega
  have e : ∀ e2 : EncodeEnv, AngularFormSnapshotContent.captureForms fc e2 =
      .error ("Too many form controls detected (" ++ toString fc.length ++
        "). Maximum allowed: " ++
        toString CONTENT_SCRIPT_CONFIG.MAX_FORM_CONTROLS) := by
    intro e2
    unfold AngularFormSnapshotContent.captureForms
    rw [if_neg h0, if_pos h]
  refine ⟨e env, by rw [e env, e env'], fun t hc => ?_⟩
  rw [e env] at hc
  exact Except.noConfusion hc

/-- Witness for the C5 theorem: 1001 controls trip the count gate. -/
theorem captureForms_capacity_witness :
    CONTENT_SCRIPT_CONFIG.MAX_FORM_CONTROLS <
      (List.replicate 1001 (mkCtrl "x")).length ∧
    (AngularFormSnapshotContent.captureForms (List.replicate 1001 (mkCtrl "x")) env1 =
      .error ("Too many form controls detected (" ++
        toString (List.replicate 1001 (mkCtrl "x")).length ++
        "). Maximum allowed: " ++ toString CONTENT_SCRIPT_CONFIG.MAX_FORM_CONTROLS) ∧
    AngularFormSnapshotContent.captureForms (List.replicate 1001 (mkCtrl "x")) env1 =
      AngularFormSnapshotContent.captureForms (List.replicate 1001 (mkCtrl "x")) env2 ∧
    ∀ t, AngularFormSnapshotContent.captureForms
      (List.replicate 1001 (mkCtrl "x")) env1 ≠ .ok t) :=
  ⟨by decide, captureForms_capacity (List.replicate 1001 (mkCtrl "x")) env1 env2
    (by decide)⟩

/-- Counterexample to the serialized-size half of the original claim: a
snapshot whose serialization exceeds `MAX_SNAPSHOT_SIZE` (5 MiB) but holds a
single control is *not* rejected — `captureForms` hands it to the encoder
and a token is produced. -/
theorem captureForms_oversize_counterexample :
    ENCODING_CONFIG.MAX_SNAPSHOT_SIZE <
      (jsonStringify (snapshotJson env1 [hugeControl])).length ∧
    AngularFormSnapshotContent.captureForms [hugeControl] env1 =
      .ok (DataEncoder.encodeFormData env1 [hugeControl]) := by
  constructor
  · have h := value_length_le_snapshot env1 hugeControl (dupString^[20] "aaaaaa") rfl
    have hlen : (dupString^[20] "aaaaaa").length = 6291456 := by
      rw [dupString_length]
      decide
    rw [hlen] at h
    show 5 * 1024 * 1024 < _
    omega
  · unfold AngularFormSnapshotContent.captureForms
    rw [if_neg (by decide), if_neg (by decide)]

/-! ## C2: decode failure modes -/

/-- A well-formed three-part token with an unknown version is rejected with
the version error, whatever its checksum and payload hold. -/
theorem decodeFormData_version_error (V CS P : String)
    (hv : ∀ c ∈ V.data, c ≠ '|') (hcs : ∀ c ∈ CS.data, c ≠ '|')
    (hp : ∀ c ∈ P.data, c ≠ '|') (hne : V ≠ ENCODING_CONFIG.VERSION) :
    DataEncoder.decodeFormData (V ++ ⟨['|']⟩ ++ CS ++ ⟨['|']⟩ ++ P) =
      .error (.unsupportedVersion V) := by
  rw [decodeFormData_parts _ V.data CS.data P.data (jsSplit_token V CS P hv hcs hp),
    if_pos (show (⟨V.data⟩ : String) ≠ ENCODING_CONFIG.VERSION from hne)]

/-- A well-formed three-part token with the right version whose stored
checksum differs from the recomputed checksum of the payload text is
rejected with the integrity error — for *every* payload, in particular for
payloads that could not be base64-decoded, UTF-8-decoded or JSON-parsed:
the decoder stops before those steps. -/
theorem decodeFormData_integrity_error (CS P : String)
    (hcs : ∀ c ∈ CS.data, c ≠ '|') (hp : ∀ c ∈ P.data, c ≠ '|')
    (hne : CS ≠ DataEncoder.calculateChecksum P) :
    DataEncoder.decodeFormData
      (ENCODING_CONFIG.VERSION ++ ⟨['|']⟩ ++ CS ++ ⟨['|']⟩ ++ P) =
      .error .integrityCheckFailed := by
  rw [decodeFormData_parts _ _ _ _
      (jsSplit_token ENCODING_CONFIG.VERSION CS P (by decide) hcs hp),
    if_neg (by simp),
    if_pos (show (⟨CS.data⟩ : String) ≠ DataEncoder.calculateChecksum ⟨P.data⟩ from hne)]

/-- Writing one character at a payload position of the token (the payload
segment starts at index 21 = 3 version chars + separator + 16 checksum chars
+ separator) rewrites the payload and leaves the rest of the token
unchanged. -/
theorem encodeFormData_data_set (env : EncodeEnv) (fc : List Control) (i : Nat)
    (c' : Char) :
    (DataEncoder.encodeFormData env fc).data.set (21 + i) c' =
      ENCODING_CONFIG.VERSION.data ++ '|' ::
        ((DataEncoder.tokenChecksum env fc).data ++ '|' ::
          (DataEncoder.tokenPayload env fc).data.set i c') := by
  rw [DataEncoder.encodeFormData_eq]
  have hdata : (ENCODING_CONFIG.VERSION ++ ⟨[ENCODING_CONFIG.SEPARATOR]⟩ ++
      DataEncoder.tokenChecksum env fc ++
      ⟨[ENCODING_CONFIG.SEPARATOR]⟩ ++ DataEncoder.tokenPayload env fc).data =
      (ENCODING_CONFIG.VERSION.data ++ '|' :: ((DataEncoder.tokenChecksum env fc).data ++
        ['|'])) ++ (DataEncoder.tokenPayload env fc).data := by
    simp [String.data_append, List.append_assoc, ENCODING_CONFIG.SEPARATOR]
  have h16 : (DataEncoder.tokenChecksum env fc).data.length = 16 :=
    calculateChecksum_length (DataEncoder.tokenPayload env fc)
  have hlen : (ENCODING_CONFIG.VERSION.data ++ '|' ::
      ((DataEncoder.tokenChecksum env fc).data ++ ['|'])).length = 21 := by
    simp only [List.length_append, List.length_cons, List.length_nil, h16]
    decide
  rw [hdata, List.set_append_right _ _ (by rw [hlen]; omega), hlen,
    Nat.add_sub_cancel_left]
  simp [List.append_assoc]

/-- Flipping a payload character of a valid token *to the separator itself*
makes the token split into four parts: decode reports the *format* error,
not the integrity error. -/
theorem decodeFormData_flip_to_sep (env : EncodeEnv) (fc : List Control) (i : Nat)
    (hi : i < (DataEncoder.tokenPayload env fc).data.length) :
    DataEncoder.decodeFormData
      ⟨(DataEncoder.encodeFormData env fc).data.set (21 + i) '|'⟩ =
      .error .invalidFormat := by
  rw [encodeFormData_data_set]
  apply decodeFormData_format_error
  have hset : (DataEncoder.tokenPayload env fc).data.set i '|' =
      (DataEncoder.tokenPayload env fc).data.take i ++ '|' ::
        (DataEncoder.tokenPayload env fc).data.drop (i + 1) := by
    rw [List.set_eq_take_append_cons_drop, if_pos hi]
  have htake : ∀ c ∈ (DataEncoder.tokenPayload env fc).data.take i, c ≠ '|' :=
    fun c hc => encodeData_ne_sep _ c (List.mem_of_mem_take hc)
  have hcsf : ∀ c ∈ (DataEncoder.tokenChecksum env fc).data, c ≠ '|' :=
    calculateChecksum_ne_sep (DataEncoder.tokenPayload env fc)
  show (jsSplit '|' (ENCODING_CONFIG.VERSION.data ++ '|' ::
      ((DataEncoder.tokenChecksum env fc).data ++ '|' ::
        (DataEncoder.tokenPayload env fc).data.set i '|'))).length ≠ 3
  rw [hset, jsSplit_append_sep _ _ _ (by decide),
    jsSplit_append_sep _ _ _ hcsf,
    jsSplit_append_sep _ _ _ htake]
  rcases h : jsSplit '|' ((DataEncoder.tokenPayload env fc).data.drop (i + 1)) with
    _ | ⟨a, t⟩
  · exact absurd h (jsSplit_ne_nil _ _)
  · simp

/-- Flipping a payload character of a valid token to any non-separator
character yields the integrity error — unless the truncated checksum of the
modified payload text collides with the stored checksum. -/
theorem decodeFormData_flip_to_other (env : EncodeEnv) (fc : List Control) (i : Nat)
    (c' : Char) (hc' : c' ≠ '|')
    (hne : DataEncoder.tokenChecksum env fc ≠
      DataEncoder.calculateChecksum ⟨(DataEncoder.tokenPayload env fc).data.set i c'⟩) :
    DataEncoder.decodeFormData
      ⟨(DataEncoder.encodeFormData env fc).data.set (21 + i) c'⟩ =
      .error .integrityCheckFailed := by
  rw [encodeFormData_data_set]
  have hp' : ∀ c ∈ (DataEncoder.tokenPayload env fc).data.set i c', c ≠ '|' := by
    intro c hc
    rcases List.mem_or_eq_of_mem_set hc with h | rfl
    · exact encodeData_ne_sep _ c h
    · exact hc'
  have hsplit : jsSplit '|' ((⟨ENCODING_CONFIG.VERSION.data ++ '|' ::
      ((DataEncoder.tokenChecksum env fc).data ++ '|' ::
        (DataEncoder.tokenPayload env fc).data.set i c')⟩ : String).data) =
      [ENCODING_CONFIG.VERSION.data, (DataEncoder.tokenChecksum env fc).data,
        (DataEncoder.tokenPayload env fc).data.set i c'] := by
    show jsSplit '|' (ENCODING_CONFIG.VERSION.data ++ '|' ::
      ((DataEncoder.tokenChecksum env fc).data ++ '|' ::
        (DataEncoder.tokenPayload env fc).data.set i c')) = _
    have hcsf : ∀ c ∈ (DataEncoder.tokenChecksum env fc).data, c ≠ '|' :=
      calculateChecksum_ne_sep (DataEncoder.tokenPayload env fc)
    rw [jsSplit_append_sep _ _ _ (by decide),
      jsSplit_append_sep _ _ _ hcsf,
      jsSplit_no_sep _ _ hp']
  rw [decodeFormData_parts _ _ _ _ hsplit, if_neg (by simp),
    if_pos (show (⟨(DataEncoder.tokenChecksum env fc).data⟩ : String) ≠
      DataEncoder.calculateChecksum
        ⟨(DataEncoder.tokenPayload env fc).data.set i c'⟩ from hne)]

/-- **C2.** The decode failure modes of `decodeFormData`: (1) a token that
does not split into exactly three separator-delimited parts is a format
error; (2) a three-part token whose version part is not the supported
version is a version error, however well-formed its checksum and payload;
(3) a three-part token with the right version whose stored checksum differs
from the recomputed checksum of the payload text is an integrity error for
*every* payload — the decoder stops without base64-decoding, decompressing
or JSON-parsing it; (4) flipping a payload character of a produced token
(payload positions are 21 + i) to the separator makes decode fail with the
*format* error, not the integrity error; (5) flipping it to any other
character makes decode fail with the integrity error unless the 16-hex-char
truncated checksum of the modified payload collides with the stored one. -/
theorem decodeFormData_error_paths :
    (∀ t : String, (jsSplit '|' t.data).length ≠ 3 →
      DataEncoder.decodeFormData t = .error .invalidFormat) ∧
    (∀ V CS P : String, (∀ c ∈ V.data, c ≠ '|') → (∀ c ∈ CS.data, c ≠ '|') →
      (∀ c ∈ P.data, c ≠ '|') → V ≠ ENCODING_CONFIG.VERSION →
      DataEncoder.decodeFormData (V ++ ⟨['|']⟩ ++ CS ++ ⟨['|']⟩ ++ P) =
        .error (.unsupportedVersion V)) ∧
    (∀ CS P : String, (∀ c ∈ CS.data, c ≠ '|') → (∀ c ∈ P.data, c ≠ '|') →
      CS ≠ DataEncoder.calculateChecksum P →
      DataEncoder.decodeFormData
        (ENCODING_CONFIG.VERSION ++ ⟨['|']⟩ ++ CS ++ ⟨['|']⟩ ++ P) =
        .error .integrityCheckFailed) ∧
    (∀ (env : EncodeEnv) (fc : List Control) (i : Nat),
      i < (DataEncoder.tokenPayload env fc).data.length →
      DataEncoder.decodeFormData
        ⟨(DataEncoder.encodeFormData env fc).data.set (21 + i) '|'⟩ =
        .error .invalidFormat) ∧
    (∀ (env : EncodeEnv) (fc : List Control) (i : Nat) (c' : Char),
      i < (DataEncoder.tokenPayload env fc).data.length → c' ≠ '|' →
      DataEncoder.decodeFormData
        ⟨(DataEncoder.encodeFormData env fc).data.set (21 + i) c'⟩ =
        .error .integrityCheckFailed ∨
      DataEncoder.tokenChecksum env fc =
        DataEncoder.calculateChecksum
          ⟨(DataEncoder.tokenPayload env fc).data.set i c'⟩) := by
  refine ⟨decodeFormData_format_error, decodeFormData_version_error,
    decodeFormData_integrity_error, decodeFormData_flip_to_sep,
    fun env fc i c' hi hc' => ?_⟩
  by_cases hcol : DataEncoder.tokenChecksum env fc =
      DataEncoder.calculateChecksum ⟨(DataEncoder.tokenPayload env fc).data.set i c'⟩
  · exact Or.inr hcol
  · exact Or.inl (decodeFormData_flip_to_other env fc i c' hc' hcol)

/-- Witness for the C2 theorem: each failure mode exercised at a concrete
input (conjunct 3 with a 1-character stored checksum, which can never equal
the 16-character recomputed one). -/
theorem decodeFormData_error_paths_witness :
    DataEncoder.decodeFormData "abc" = .error .invalidFormat ∧
    DataEncoder.decodeFormData ("9.9" ++ ⟨['|']⟩ ++ "c" ++ ⟨['|']⟩ ++ "p") =
      .error (.unsupportedVersion "9.9") ∧
    DataEncoder.decodeFormData
      (ENCODING_CONFIG.VERSION ++ ⟨['|']⟩ ++ "c" ++ ⟨['|']⟩ ++ "p") =
      .error .integrityCheckFailed ∧
    DataEncoder.decodeFormData
      ⟨(DataEncoder.encodeFormData env1 []).data.set (21 + 0) '|'⟩ =
      .error .invalidFormat ∧
    (DataEncoder.decodeFormData
      ⟨(DataEncoder.encodeFormData env1 []).data.set (21 + 0) 'A'⟩ =
      .error .integrityCheckFailed ∨
    DataEncoder.tokenChecksum env1 [] =
      DataEncoder.calculateChecksum
        ⟨(DataEncoder.tokenPayload env1 []).data.set 0 'A'⟩) :=
  ⟨decodeFormData_error_paths.1 "abc" (by decide),
   decodeFormData_error_paths.2.1 "9.9" "c" "p" (by decide) (by decide) (by decide)
     (by decide),
   decodeFormData_error_paths.2.2.1 "c" "p" (by decide) (by decide)
     (fun h => absurd (congrArg String.length h)
       (by rw [calculateChecksum_length]; decide)),
   decodeFormData_error_paths.2.2.2.1 env1 [] 0 (by decide),
   decodeFormData_error_paths.2.2.2.2 env1 [] 0 'A' (by decide) (by decide)⟩

/-- Counterexample to "flipping any single character in the payload segment
causes an integrity error": flipping the first payload character (token
index 21) of a concrete valid token to the separator produces the *format*
error instead. -/
theorem decodeFormData_flip_counterexample :
    DataEncoder.decodeFormData
      ⟨(DataEncoder.encodeFormData env1 []).data.set (21 + 0) '|'⟩ =
      .error .invalidFormat ∧
    DataEncoder.DecodeError.invalidFormat ≠ DataEncoder.DecodeError.integrityCheckFailed :=
  ⟨decodeFormData_flip_to_sep env1 [] 0 (by decide), by decide⟩
